import Mathlib

/-!
# Verification of the telemetry-core batched state and aggregator handle

A shallow embedding of `src/backend/telemetry_core/src/state/batched.rs`
(the batching wrapper `State`) and of the connection-id allocation in
`src/backend/telemetry_core/src/aggregator/aggregator.rs`, together with
theorems settling the specified properties.

Rust `HashMap` / `HashSet` / `BiMap` values are modelled as association
lists (iteration order is an arbitrary but fixed determinization of the
hash order; none of the proved properties depend on the order chosen).
Machine integers are modelled as `Nat`, with an explicit `% 2 ^ 64`
where the `u64` wrap-around of `AtomicU64::fetch_add` matters.
-/

set_option autoImplicit false

namespace Substation

universe u v

/-! ## Association-list helpers (model of HashMap / HashSet) -/

variable {κ : Type u} {α : Type v} [DecidableEq κ]

/-- Lookup of the first binding of key `k`. -/
def lookupA : List (κ × α) → κ → Option α
  | [], _ => none
  | (k', v) :: r, k => if k' = k then some v else lookupA r k

/-- Overwriting insert: all bindings of `k` are dropped and `(k, v)` is appended. -/
def insertA (m : List (κ × α)) (k : κ) (v : α) : List (κ × α) :=
  (m.filter fun p => !decide (p.1 = k)) ++ [(k, v)]

/-- Remove every binding of `k`. -/
def eraseA (m : List (κ × α)) (k : κ) : List (κ × α) :=
  m.filter fun p => !decide (p.1 = k)

/-- Set insert (dedup append). -/
def insertS (l : List κ) (x : κ) : List κ :=
  (l.filter fun y => !decide (y = x)) ++ [x]

/-- Set erase. -/
def eraseS (l : List κ) (x : κ) : List κ :=
  l.filter fun y => !decide (y = x)

theorem lookupA_nil (k : κ) : lookupA ([] : List (κ × α)) k = none := rfl

theorem lookupA_cons (k' : κ) (v : α) (r : List (κ × α)) (k : κ) :
    lookupA ((k', v) :: r) k = if k' = k then some v else lookupA r k := rfl

theorem lookupA_append (a b : List (κ × α)) (k : κ) :
    lookupA (a ++ b) k = ((lookupA a k).rec (lookupA b k) fun v => some v) := by
  induction a with
  | nil => rfl
  | cons p r ih =>
    rcases p with ⟨k', v⟩
    by_cases h : k' = k <;> simp [lookupA_cons, h, ih]

theorem lookupA_filter_ne (m : List (κ × α)) (k k' : κ) :
    lookupA (m.filter fun p => !decide (p.1 = k)) k' =
      if k' = k then none else lookupA m k' := by
  induction m with
  | nil => by_cases h : k' = k <;> simp [lookupA, h]
  | cons p r ih =>
    rcases p with ⟨k₀, v⟩
    by_cases h1 : k' = k
    · subst h1
      by_cases h0 : k₀ = k' <;>
        simp [List.filter_cons, h0, lookupA_cons, ih]
    · by_cases h0 : k₀ = k
      · have hk0 : k ≠ k' := fun hh => h1 hh.symm
        simp [List.filter_cons, h0, lookupA_cons, ih, h1, hk0]
      · by_cases h2 : k₀ = k' <;>
          simp [List.filter_cons, h0, lookupA_cons, ih, h1, h2]

theorem lookupA_insertA_self (m : List (κ × α)) (k : κ) (v : α) :
    lookupA (insertA m k v) k = some v := by
  unfold insertA
  rw [lookupA_append, lookupA_filter_ne]
  simp [lookupA_cons]

theorem lookupA_insertA_ne (m : List (κ × α)) (k k' : κ) (v : α) (h : k' ≠ k) :
    lookupA (insertA m k v) k' = lookupA m k' := by
  unfold insertA
  rw [lookupA_append, lookupA_filter_ne]
  simp only [if_neg h]
  cases hl : lookupA m k' <;> simp [lookupA_cons, lookupA_nil, Ne.symm h]

theorem lookupA_eraseA_self (m : List (κ × α)) (k : κ) :
    lookupA (eraseA m k) k = none := by
  unfold eraseA; rw [lookupA_filter_ne]; simp

theorem lookupA_eraseA_ne (m : List (κ × α)) (k k' : κ) (h : k' ≠ k) :
    lookupA (eraseA m k) k' = lookupA m k' := by
  unfold eraseA; rw [lookupA_filter_ne]; simp [h]

theorem lookupA_mem {m : List (κ × α)} {k : κ} {v : α} (h : lookupA m k = some v) :
    (k, v) ∈ m := by
  induction m with
  | nil => simp [lookupA] at h
  | cons p r ih =>
    rcases p with ⟨k', v'⟩
    by_cases hk : k' = k
    · subst hk
      simp [lookupA_cons] at h
      subst h; exact List.mem_cons_self _ _
    · simp [lookupA_cons, hk] at h
      exact List.mem_cons_of_mem _ (ih h)

theorem mem_insertA {m : List (κ × α)} {k : κ} {v : α} {p : κ × α}
    (h : p ∈ insertA m k v) : (p ∈ m ∧ p.1 ≠ k) ∨ p = (k, v) := by
  unfold insertA at h
  rcases List.mem_append.1 h with h | h
  · rcases List.mem_filter.1 h with ⟨hm, hp⟩
    left; exact ⟨hm, by simpa using hp⟩
  · right; simpa using h

theorem mem_insertS {l : List κ} {x y : κ} (h : y ∈ insertS l x) :
    y ∈ l ∨ y = x := by
  unfold insertS at h
  rcases List.mem_append.1 h with h | h
  · exact Or.inl (List.mem_filter.1 h).1
  · right; simpa using h

theorem mem_of_mem_eraseS {l : List κ} {x y : κ} (h : y ∈ eraseS l x) : y ∈ l :=
  (List.mem_filter.1 h).1

theorem ne_of_mem_eraseS {l : List κ} {x y : κ} (h : y ∈ eraseS l x) : y ≠ x := by
  have := (List.mem_filter.1 h).2
  simpa using this

theorem not_mem_eraseS_self (l : List κ) (x : κ) : x ∉ eraseS l x := by
  intro h; exact ne_of_mem_eraseS h rfl

/-- The keys of an association list. -/
def keysA (m : List (κ × α)) : List κ := m.map Prod.fst

theorem keysA_filter_ne (m : List (κ × α)) (k : κ) :
    keysA (m.filter fun p => !decide (p.1 = k)) =
      (keysA m).filter fun x => !decide (x = k) := by
  induction m with
  | nil => rfl
  | cons p r ih =>
    by_cases h : p.1 = k <;> simp [keysA, h] at * <;> simp [ih]

theorem keysA_insertA (m : List (κ × α)) (k : κ) (v : α) :
    keysA (insertA m k v) = ((keysA m).filter fun x => !decide (x = k)) ++ [k] := by
  unfold insertA keysA
  rw [List.map_append]
  congr 1
  exact keysA_filter_ne m k

theorem keysA_nodup_insertA {m : List (κ × α)} (k : κ) (v : α)
    (h : (keysA m).Nodup) : (keysA (insertA m k v)).Nodup := by
  rw [keysA_insertA]
  refine List.Nodup.append (h.filter _) (List.nodup_singleton k) ?_
  intro x hx hk
  simp at hk
  subst hk
  have := (List.mem_filter.1 hx).2
  simp at this

theorem keysA_nodup_eraseA {m : List (κ × α)} (k : κ)
    (h : (keysA m).Nodup) : (keysA (eraseA m k)).Nodup := by
  unfold eraseA
  rw [keysA_filter_ne]
  exact h.filter _

/-! ## Fold helpers -/

theorem foldl_preserve {σ : Type u} {β : Type v} (P : σ → Prop) {f : σ → β → σ}
    (l : List β) (s : σ) (step : ∀ t x, x ∈ l → P t → P (f t x)) (h : P s) :
    P (l.foldl f s) := by
  induction l generalizing s with
  | nil => exact h
  | cons x r ih =>
    exact ih _ (fun t y hy => step t y (List.mem_cons_of_mem _ hy))
      (step s x (List.mem_cons_self _ _) h)

theorem foldl_rel {σ : Type u} {β : Type v} {R : σ → σ → Prop} {f : σ → β → σ}
    (hrefl : ∀ s, R s s) (htrans : ∀ a b c, R a b → R b c → R a c)
    (l : List β) (s : σ) (step : ∀ t x, x ∈ l → R t (f t x)) :
    R s (l.foldl f s) := by
  induction l generalizing s with
  | nil => exact hrefl s
  | cons x r ih =>
    exact htrans _ _ _ (step s x (List.mem_cons_self _ _))
      (ih _ fun t y hy => step t y (List.mem_cons_of_mem _ hy))

/-! ## Chunking (model of `Itertools::chunks` and Rayon `chunks`) -/

/-- Fuel-driven worker for `chunksOf` (structural recursion on the fuel so
that concrete instances evaluate by kernel reduction). -/
def chunksOfFuel {β : Type v} (n : Nat) : Nat → List β → List (List β)
  | _, [] => []
  | 0, _ :: _ => []
  | fuel + 1, x :: xs => (x :: xs.take (n - 1)) :: chunksOfFuel n fuel (xs.drop (n - 1))

/-- Split a list into consecutive chunks of at most `n` elements (`n ≥ 1`). -/
def chunksOf {β : Type v} (n : Nat) (l : List β) : List (List β) :=
  chunksOfFuel n l.length l

theorem chunksOfFuel_length_le {β : Type v} {n : Nat} (hn : 1 ≤ n) :
    ∀ (fuel : Nat) (l : List β), l.length ≤ fuel →
      ∀ c ∈ chunksOfFuel n fuel l, c.length ≤ n := by
  intro fuel
  induction fuel with
  | zero =>
    intro l hl c hc
    cases l <;> simp_all [chunksOfFuel]
  | succ fuel ih =>
    intro l hl c hc
    cases l with
    | nil => simp [chunksOfFuel] at hc
    | cons x xs =>
      rw [chunksOfFuel] at hc
      rcases List.mem_cons.1 hc with rfl | hc
      · simp only [List.length_cons, List.length_take]
        omega
      · refine ih (xs.drop (n - 1)) ?_ c hc
        simp only [List.length_drop]
        simp only [List.length_cons] at hl
        omega

theorem length_le_of_mem_chunksOf {β : Type v} {n : Nat} (hn : 1 ≤ n)
    (l : List β) : ∀ c ∈ chunksOf n l, c.length ≤ n :=
  chunksOfFuel_length_le hn l.length l (Nat.le_refl _)

theorem chunksOfFuel_flatten {β : Type v} {n : Nat} :
    ∀ (fuel : Nat) (l : List β), l.length ≤ fuel →
      (chunksOfFuel n fuel l).flatten = l := by
  intro fuel
  induction fuel with
  | zero =>
    intro l hl
    cases l <;> simp_all [chunksOfFuel]
  | succ fuel ih =>
    intro l hl
    cases l with
    | nil => simp [chunksOfFuel]
    | cons x xs =>
      rw [chunksOfFuel]
      simp only [List.flatten_cons]
      rw [ih (xs.drop (n - 1))]
      · simp [List.take_append_drop]
      · simp only [List.length_drop]
        simp only [List.length_cons] at hl
        omega

theorem flatten_chunksOf {β : Type v} {n : Nat} (l : List β) :
    (chunksOf n l).flatten = l :=
  chunksOfFuel_flatten l.length l (Nat.le_refl _)

end Substation

namespace Substation

/-! ## Data model

`NodeId` encodes (chain genesis hash, dense slot index), following the
design note "NodeId encodes (chain, slot)".  `BlockHash`, `ShardNodeId`,
connection ids, and opaque payload bodies are modelled as `Nat`. -/

/-- The aggregator's internal node identifier: (genesis hash, slot index). -/
abbrev NodeId := Nat × Nat

/-- Immutable details reported on admission.  `chain_name` is the chain
label the node reports (used for the chain's displayed label and the
denylist check); `name` stands for the rest of the opaque details. -/
structure NodeDetails where
  chain_name : String
  name : Nat
deriving DecidableEq

/-- A per-node record owned by a chain (the parts of `Node` the claims
touch: details, finalized block, staleness, location). -/
structure Node where
  details : NodeDetails
  finalizedHeight : Nat := 0
  finalizedHash : Nat := 0
  stale : Bool := false
  location : Option Nat := none
deriving DecidableEq

/-- `node_message::Payload` — one typed telemetry payload; bodies are opaque. -/
inductive Payload where
  | systemConnected (v : Nat)
  | systemInterval (v : Nat)
  | blockImport (v : Nat)
  | notifyFinalized (v : Nat)
  | afgAuthoritySet (v : Nat)
deriving DecidableEq

/-- One logical feed message.  Per-node messages carry the chain-local id
(the slot index), exactly as serialized by `get_chain_node_id().into()`
and by the `enumerate()` index in the roster builder. -/
inductive FeedMsg where
  | removedChain (g : Nat)
  | addedChain (label : String) (g nodeCount highest : Nat)
  | removedNode (lid : Nat)
  | addedNode (lid : Nat) (details : NodeDetails)
  | locatedNode (lid : Nat) (loc : Nat)
  | systemConnectedMsg (lid v : Nat)
  | systemIntervalMsg (lid v : Nat)
  | blockImportMsg (lid v : Nat)
  | notifyFinalizedMsg (lid v : Nat)
  | afgAuthoritySetMsg (lid v : Nat)
  | finalizedBlock (lid height hash : Nat)
  | staleNode (lid : Nat)
deriving DecidableEq

/-- `NodeUpdates` — one optional slot per payload kind plus the location
slot; repeated payloads of a kind overwrite the slot. -/
structure NodeUpdates where
  system_connected : Option Nat := none
  system_interval : Option Nat := none
  block_import : Option Nat := none
  notify_finalized : Option Nat := none
  afg_authority_set : Option Nat := none
  location : Option Nat := none
deriving DecidableEq

/-! ## The inner node/chain model (`state::State`)

The file `src/state/state.rs` is not part of the provided sources; only
`batched.rs` (its caller) is.  The definitions below are modelled from the
spec, §4.A "Node / Chain model": dense index-addressable slots with a free
list, admission via denylist and third-party quota, label recomputation by
most-reported value, and removal that frees the slot and destroys the
chain when the last node leaves. -/

/-- Modelled from the spec: a chain owns its nodes in a dense slot vector;
`label` is the displayed label. -/
structure OChain where
  label : String := ""
  nodes : List (Option Node) := []
deriving DecidableEq

/-- Live members of a chain, in slot order. -/
def OChain.liveNodes (c : OChain) : List Node := c.nodes.filterMap id

/-- Index of the first free (`none`) slot, if any. -/
def firstNoneIdx : List (Option Node) → Option Nat
  | [] => none
  | none :: _ => some 0
  | some _ :: r => (firstNoneIdx r).map (· + 1)

/-- Number of live nodes of a chain. -/
def OChain.nodeCount (c : OChain) : Nat := c.liveNodes.length

/-- Bump the count of label `s` in an occurrence-ordered count list. -/
def bumpLabel : List (String × Nat) → String → List (String × Nat)
  | [], s => [(s, 1)]
  | (t, n) :: rest, s =>
    if t = s then (t, n + 1) :: rest else (t, n) :: bumpLabel rest s

/-- Modelled from the spec: count-per-distinct-label among the members, in
first-occurrence order. -/
def labelCounts (ns : List Node) : List (String × Nat) :=
  ns.foldl (fun acc n => bumpLabel acc n.details.chain_name) []

/-- Modelled from the spec: the most-reported label wins, ties broken by
stable (first-occurrence) order. -/
def bestLabel : List (String × Nat) → String
  | [] => ""
  | (s, n) :: rest =>
    (rest.foldl (fun (b : String × Nat) p => if b.2 < p.2 then p else b) (s, n)).1

/-- The displayed label of a member list. -/
def computeLabel (ns : List Node) : String := bestLabel (labelCounts ns)

/-- Result payload of a successful admission (`NodeAddedToChain`). -/
structure NodeAddedToChain where
  id : NodeId
  new_chain_label : String
  node : Node
  chain_node_count : Nat
  has_chain_label_changed : Bool
deriving DecidableEq

/-- `AddNodeResult` of the inner model. -/
inductive AddNodeResult where
  | nodeAddedToChain (d : NodeAddedToChain)
  | chainOverQuota
  | chainOnDenyList
deriving DecidableEq

/-- Result payload of a successful removal (`RemovedNode`). -/
structure RemovedNode where
  chain_node_count : Nat
  new_chain_label : String
deriving DecidableEq

/-- Modelled from the spec: the inner single-writer node/chain model
(`state::State`), keyed by genesis hash. -/
structure OrdinaryState where
  denylist : List String := []
  max_third_party_nodes : Nat := 0
  first_party : List Nat := []
  chains : List (Nat × OChain) := []
deriving DecidableEq

namespace OrdinaryState

/-- Total number of nodes across non-first-party chains. -/
def thirdPartyCount (st : OrdinaryState) : Nat :=
  (st.chains.filter fun p => !decide (p.1 ∈ st.first_party)).foldl
    (fun a p => a + p.2.nodeCount) 0

/-- Modelled from the spec: admission.  Denylist is checked against the
chain's candidate label; the quota applies to non-first-party chains; a
fresh `NodeId` is the first free slot (or a new slot at the end); the
label is recomputed and `has_chain_label_changed` reports whether the
displayed label changed (a fresh chain counts as changed). -/
def add_node (st : OrdinaryState) (g : Nat) (d : NodeDetails) :
    AddNodeResult × OrdinaryState :=
  let existing := (lookupA st.chains g).getD {}
  let newNode : Node := { details := d }
  let candidate := computeLabel (existing.liveNodes ++ [newNode])
  if candidate ∈ st.denylist then (.chainOnDenyList, st)
  else if !decide (g ∈ st.first_party) &&
      decide (st.max_third_party_nodes < st.thirdPartyCount + 1) then
    (.chainOverQuota, st)
  else
    let slot := (firstNoneIdx existing.nodes).getD existing.nodes.length
    let nodes' :=
      match firstNoneIdx existing.nodes with
      | some i => existing.nodes.set i (some newNode)
      | none => existing.nodes ++ [some newNode]
    let chain' : OChain := { label := candidate, nodes := nodes' }
    let changed := (lookupA st.chains g).isNone || decide (candidate ≠ existing.label)
    (.nodeAddedToChain
      { id := (g, slot), new_chain_label := candidate, node := newNode,
        chain_node_count := chain'.nodeCount, has_chain_label_changed := changed },
     { st with chains := insertA st.chains g chain' })

/-- Modelled from the spec: removal frees the slot, recomputes the label,
returns `none` for an unknown node, and destroys the chain when the last
node leaves. -/
def remove_node (st : OrdinaryState) (nid : NodeId) :
    Option RemovedNode × OrdinaryState :=
  match lookupA st.chains nid.1 with
  | none => (none, st)
  | some c =>
    match c.nodes.getD nid.2 none with
    | none => (none, st)
    | some _ =>
      let nodes' := c.nodes.set nid.2 none
      let live := nodes'.filterMap id
      if live.length = 0 then
        (some { chain_node_count := 0, new_chain_label := c.label },
         { st with chains := eraseA st.chains nid.1 })
      else
        let newLabel := computeLabel live
        (some { chain_node_count := live.length, new_chain_label := newLabel },
         { st with chains := insertA st.chains nid.1 ({ label := newLabel, nodes := nodes' }) })

/-- Modelled from the spec: resolve the owning chain of a live node. -/
def get_chain_by_node_id (st : OrdinaryState) (nid : NodeId) : Option Nat :=
  match lookupA st.chains nid.1 with
  | none => none
  | some c => if (c.nodes.getD nid.2 none).isSome then some nid.1 else none

/-- Modelled from the spec: store an asynchronously-resolved location on
the node record. -/
def update_node_location (st : OrdinaryState) (nid : NodeId) (loc : Option Nat) :
    OrdinaryState :=
  match lookupA st.chains nid.1 with
  | none => st
  | some c =>
    match c.nodes.getD nid.2 none with
    | none => st
    | some n =>
      let c' := { c with nodes := c.nodes.set nid.2 (some { n with location := loc }) }
      { st with chains := insertA st.chains nid.1 c' }

end OrdinaryState

/-- Modelled from the spec: `state::State::update_node` applies one typed
payload to a node and pushes its cascade of feed messages into the
serializer; the cascade is modelled as a single tagged message carrying
the payload body. -/
def cascade (nid : NodeId) (p : Payload) : List FeedMsg :=
  match p with
  | .systemConnected v => [.systemConnectedMsg nid.2 v]
  | .systemInterval v => [.systemIntervalMsg nid.2 v]
  | .blockImport v => [.blockImportMsg nid.2 v]
  | .notifyFinalized v => [.notifyFinalizedMsg nid.2 v]
  | .afgAuthoritySet v => [.afgAuthoritySetMsg nid.2 v]

/-! ## The batching layer (`batched.rs`) -/

/-- Accumulated updates for one chain (`ChainUpdates`). -/
structure ChainUpdates where
  node_count : Nat := 0
  highest_node_count : Nat := 0
  has_chain_label_changed : Bool := false
  chain_label : String := ""
  added_nodes : List (NodeId × Node) := []
  removed_nodes : List NodeId := []
  updated_nodes : List (NodeId × NodeUpdates) := []
deriving DecidableEq

/-- `MuteReason` for a denied admission. -/
inductive MuteReason where
  | overquota
  | chainNotAllowed
deriving DecidableEq

deriving instance DecidableEq for Except

/-- The batching wrapper `State` of `batched.rs`. -/
structure State where
  state : OrdinaryState
  chains : List (Nat × ChainUpdates) := []
  node_ids : List (NodeId × (Nat × Nat)) := []
  chain_nodes : List (Nat × List (List FeedMsg)) := []
  removed_chains : List Nat := []
  send_node_data : Bool := true
  metadata : List (Nat × Nat) := []
deriving DecidableEq

/-! ### BiMap operations (`bimap::BiMap`) -/

/-- Overwriting bimap insert: colliding pairs on either side are removed. -/
def bimapInsert (m : List (NodeId × (Nat × Nat))) (l : NodeId) (r : Nat × Nat) :
    List (NodeId × (Nat × Nat)) :=
  (m.filter fun p => !decide (p.1 = l) && !decide (p.2 = r)) ++ [(l, r)]

/-- `get_by_right`. -/
def getByRight (m : List (NodeId × (Nat × Nat))) (r : Nat × Nat) : Option NodeId :=
  (m.find? fun p => decide (p.2 = r)).map Prod.fst

/-- `remove_by_right`: the removed left value (if any) and the remaining map. -/
def removeByRight (m : List (NodeId × (Nat × Nat))) (r : Nat × Nat) :
    Option NodeId × List (NodeId × (Nat × Nat)) :=
  match m.find? fun p => decide (p.2 = r) with
  | none => (none, m)
  | some p => (some p.1, m.filter fun q => !decide (q.2 = r))

/-- `remove_by_left`. -/
def removeByLeft (m : List (NodeId × (Nat × Nat))) (l : NodeId) :
    List (NodeId × (Nat × Nat)) :=
  m.filter fun q => !decide (q.1 = l)

namespace State

/-- `State::new` with an already-loaded metadata map: each recorded chain
is seeded as an empty `ChainUpdates` carrying its persisted
`highest_node_count`. -/
def new (denylist : List String) (max_third_party_nodes : Nat)
    (send_node_data : Bool) (metadata : List (Nat × Nat))
    (first_party : List Nat) : State :=
  let md := metadata.foldl (fun acc p => insertA acc p.1 p.2) []
  { state := { denylist := denylist, max_third_party_nodes := max_third_party_nodes,
               first_party := first_party, chains := [] },
    chains := md.foldl (fun acc p => insertA acc p.1 ({ highest_node_count := p.2 })) [],
    node_ids := [], chain_nodes := [], removed_chains := [],
    send_node_data := send_node_data, metadata := md }

/-- `State::add_node`. -/
def add_node (s : State) (genesis_hash : Nat) (shard_conn_id local_id : Nat)
    (d : NodeDetails) : State × Except MuteReason NodeId :=
  match s.state.add_node genesis_hash d with
  | (.chainOverQuota, _) => (s, .error .overquota)
  | (.chainOnDenyList, _) => (s, .error .chainNotAllowed)
  | (.nodeAddedToChain det, st') =>
    let s1 := { s with state := st',
                       removed_chains := eraseS s.removed_chains genesis_hash,
                       node_ids := bimapInsert s.node_ids det.id (shard_conn_id, local_id) }
    let u := (lookupA s1.chains genesis_hash).getD {}
    let u :=
      if s1.send_node_data then
        { u with removed_nodes := eraseS u.removed_nodes det.id,
                 added_nodes := insertA u.added_nodes det.id det.node }
      else u
    let u := { u with has_chain_label_changed := det.has_chain_label_changed,
                      node_count := det.chain_node_count,
                      highest_node_count := max u.highest_node_count det.chain_node_count,
                      chain_label := det.new_chain_label }
    ({ s1 with chains := insertA s1.chains genesis_hash u }, .ok det.id)

/-- Write one payload into the node's update slots (`match payload { .. }`). -/
def setPayload (nu : NodeUpdates) : Payload → NodeUpdates
  | .systemConnected v => { nu with system_connected := some v }
  | .systemInterval v => { nu with system_interval := some v }
  | .blockImport v => { nu with block_import := some v }
  | .notifyFinalized v => { nu with notify_finalized := some v }
  | .afgAuthoritySet v => { nu with afg_authority_set := some v }

/-- `State::update_node`. -/
def update_node (s : State) (shard_conn_id local_id : Nat) (p : Payload) : State :=
  match getByRight s.node_ids (shard_conn_id, local_id) with
  | none => s
  | some nid =>
    if !s.send_node_data then s
    else
      match s.state.get_chain_by_node_id nid with
      | none => s
      | some g =>
        let u := (lookupA s.chains g).getD {}
        let nu := (lookupA u.updated_nodes nid).getD {}
        let u := { u with updated_nodes := insertA u.updated_nodes nid (setPayload nu p) }
        { s with chains := insertA s.chains g u }

/-- Per-node body of the per-chain removal loop in `State::remove_nodes`. -/
def removeGidStep (g : Nat) (s : State) (nid : NodeId) : State :=
  let s1 := { s with node_ids := removeByLeft s.node_ids nid }
  match s1.state.remove_node nid with
  | (none, _) => s1
  | (some r, st') =>
    let s2 := { s1 with state := st' }
    match lookupA s2.chains g with
    | none => s2
    | some u =>
      let u := { u with chain_label := r.new_chain_label,
                        node_count := r.chain_node_count }
      let u :=
        if s2.send_node_data then
          { u with added_nodes := eraseA u.added_nodes nid,
                   updated_nodes := eraseA u.updated_nodes nid,
                   removed_nodes := insertS u.removed_nodes nid }
        else u
      { s2 with chains := insertA s2.chains g u }

/-- One per-chain group of `State::remove_nodes`: if the group covers the
chain's whole recorded `node_count`, the chain's batch entry is dropped
and the hash recorded in `removed_chains`; otherwise each node is removed
individually. -/
def removeChainGroup (s : State) (g : Nat) (gids : List NodeId) : State :=
  match lookupA s.chains g with
  | none => s
  | some u =>
    if u.node_count = gids.length then
      { s with chains := eraseA s.chains g,
               removed_chains := insertS s.removed_chains g }
    else
      gids.foldl (removeGidStep g) s

/-- Append a node id to its chain's group (in first-encounter group order). -/
def appendToGroup (acc : List (Nat × List NodeId)) (g : Nat) (nid : NodeId) :
    List (Nat × List NodeId) :=
  match lookupA acc g with
  | none => acc ++ [(g, [nid])]
  | some gl => insertA acc g (gl ++ [nid])

/-- Group node ids by their owning chain (ids with no live chain are skipped). -/
def groupByChain (st : OrdinaryState) (ids : List NodeId) :
    List (Nat × List NodeId) :=
  ids.foldl
    (fun acc nid =>
      match st.get_chain_by_node_id nid with
      | none => acc
      | some g => appendToGroup acc g nid)
    []

/-- `State::remove_nodes`. -/
def remove_nodes (s : State) (ids : List NodeId) : State :=
  (groupByChain s.state ids).foldl (fun t p => removeChainGroup t p.1 p.2) s

/-- `State::remove_node`. -/
def remove_node (s : State) (shard_conn_id local_id : Nat) : State :=
  match removeByRight s.node_ids (shard_conn_id, local_id) with
  | (none, _) => s
  | (some nid, m') => remove_nodes { s with node_ids := m' } [nid]

/-- `State::disconnect_node`. -/
def disconnect_node (s : State) (shard_conn_id : Nat) : State :=
  remove_nodes s
    ((s.node_ids.filter fun p => decide (p.2.1 = shard_conn_id)).map Prod.fst)

/-- `State::update_node_location`: the location is stored on the node
record first; when node data is enabled and a location is present, it is
also recorded in the owning chain's pending `updated_nodes` entry. -/
def update_node_location (s : State) (nid : NodeId) (loc : Option Nat) : State :=
  if s.send_node_data then
    match loc with
    | some l =>
      match (s.state.update_node_location nid loc).get_chain_by_node_id nid with
      | none => { s with state := s.state.update_node_location nid loc }
      | some g =>
        let u := (lookupA s.chains g).getD {}
        let nu := (lookupA u.updated_nodes nid).getD {}
        let u := { u with updated_nodes := insertA u.updated_nodes nid ({ nu with location := some l }) }
        { s with state := s.state.update_node_location nid loc,
                 chains := insertA s.chains g u }
    | none => { s with state := s.state.update_node_location nid loc }
  else { s with state := s.state.update_node_location nid loc }

/-- `Metadata::update`: write through every differing or missing
`highest_node_count`; report whether anything changed. -/
def metadataUpdate (md : List (Nat × Nat)) (chains : List (Nat × ChainUpdates)) :
    List (Nat × Nat) × Bool :=
  chains.foldl
    (fun acc p =>
      match lookupA acc.1 p.1 with
      | none => (insertA acc.1 p.1 p.2.highest_node_count, true)
      | some h =>
        if h = p.2.highest_node_count then acc
        else (insertA acc.1 p.1 p.2.highest_node_count, true))
    (md, false)

/-- `State::drain_updates_for_all_feeds`: write metadata through, then per
chain emit `RemovedChain` iff the label-changed flag is set (clearing it)
followed by `AddedChain`, then one `RemovedChain` per entry of
`removed_chains` (cleared). -/
def drain_updates_for_all_feeds (s : State) : State × List FeedMsg :=
  let md := (metadataUpdate s.metadata s.chains).1
  let msgs :=
    s.chains.flatMap fun p =>
      (if p.2.has_chain_label_changed then [FeedMsg.removedChain p.1] else []) ++
        [FeedMsg.addedChain p.2.chain_label p.1 p.2.node_count p.2.highest_node_count]
  let chains' := s.chains.map fun p => (p.1, { p.2 with has_chain_label_changed := false })
  ({ s with metadata := md, chains := chains', removed_chains := [] },
   msgs ++ s.removed_chains.map FeedMsg.removedChain)

/-- Number of logical messages per outbound chunk (`MSGS_PER_WS_MSG`):
the chunking constant, 64. -/
def MSGS_PER_WS_MSG : Nat := 64

/-- The per-updated-node emission of `drain_chain_updates`: `LocatedNode`
first if a location is pending, then the replay of each set payload slot
in the fixed kind order. -/
def emitNode (nid : NodeId) (nu : NodeUpdates) : List FeedMsg :=
  (match nu.location with
   | some l => [FeedMsg.locatedNode nid.2 l]
   | none => []) ++
  (match nu.system_connected with
   | some v => cascade nid (.systemConnected v)
   | none => []) ++
  (match nu.system_interval with
   | some v => cascade nid (.systemInterval v)
   | none => []) ++
  (match nu.block_import with
   | some v => cascade nid (.blockImport v)
   | none => []) ++
  (match nu.notify_finalized with
   | some v => cascade nid (.notifyFinalized v)
   | none => []) ++
  (match nu.afg_authority_set with
   | some v => cascade nid (.afgAuthoritySet v)
   | none => [])

/-- The removed-node chunks of one chain. -/
def removedChunks (u : ChainUpdates) : List (List FeedMsg) :=
  (chunksOf MSGS_PER_WS_MSG u.removed_nodes).map
    (List.map fun nid => FeedMsg.removedNode nid.2)

/-- The added-node chunks of one chain. -/
def addedChunks (u : ChainUpdates) : List (List FeedMsg) :=
  (chunksOf MSGS_PER_WS_MSG u.added_nodes).map
    (List.map fun p => FeedMsg.addedNode p.1.2 p.2.details)

/-- The updated-node chunks of one chain (64 node entries per chunk). -/
def updatedChunks (u : ChainUpdates) : List (List FeedMsg) :=
  (chunksOf MSGS_PER_WS_MSG u.updated_nodes).map
    fun c => c.flatMap fun p => emitNode p.1 p.2

/-- All chunks of one chain, in drain order. -/
def drainOneChain (u : ChainUpdates) : List (List FeedMsg) :=
  removedChunks u ++ addedChunks u ++ updatedChunks u

/-- `State::drain_chain_updates`: for every chain whose recorded count is
non-zero, drain the three delta sets into chunks of 64 entries. -/
def drain_chain_updates (s : State) :
    State × List (Nat × List (List FeedMsg)) :=
  let out := (s.chains.filter fun p => !decide (p.2.node_count = 0)).map
    fun p => (p.1, drainOneChain p.2)
  let chains' := s.chains.map fun p =>
    (p.1,
      if p.2.node_count = 0 then p.2
      else { p.2 with added_nodes := [], removed_nodes := [], updated_nodes := [] })
  ({ s with chains := chains' }, out)

/-- Roster messages for one enumerated slot (`AddedNode`, `FinalizedBlock`,
and `StaleNode` when applicable). -/
def rosterEntry (e : Nat × Option Node) : List FeedMsg :=
  match e.2 with
  | none => []
  | some n =>
    [FeedMsg.addedNode e.1 n.details,
     FeedMsg.finalizedBlock e.1 n.finalizedHeight n.finalizedHash] ++
      (if n.stale then [FeedMsg.staleNode e.1] else [])

/-- One roster chunk: up to 64 enumerated slots, each live node pushing
its 2–3 messages. -/
def rosterChunk (c : List (Nat × Option Node)) : List FeedMsg :=
  c.flatMap rosterEntry

/-- `State::update_added_nodes_messages`: regenerate the per-chain roster;
chunks that serialized no message are dropped (`into_finalized` returns
`None`). -/
def update_added_nodes_messages (s : State) : State :=
  if !s.send_node_data then s
  else
    { s with chain_nodes :=
        s.state.chains.map fun p =>
          (p.1,
            ((chunksOf MSGS_PER_WS_MSG p.2.nodes.enum).map rosterChunk).filter
              fun c => !c.isEmpty) }

end State

/-! ## Event interface

The public mutating operations of the batched state, and traces of them
from a freshly-constructed state (`State::new`). -/

/-- One public operation on the batched state. -/
inductive Op where
  | addNode (g conn localId : Nat) (d : NodeDetails)
  | updateNode (conn localId : Nat) (p : Payload)
  | removeNode (conn localId : Nat)
  | disconnectNode (conn : Nat)
  | updateNodeLocation (nid : NodeId) (loc : Option Nat)
  | drainAllFeeds
  | drainChainUpdates
  | updateAddedNodesMessages
deriving DecidableEq

/-- Apply one operation (drain results are discarded; the claims read them
where needed via the drain functions directly). -/
def applyOp (s : State) : Op → State
  | .addNode g c l d => (s.add_node g c l d).1
  | .updateNode c l p => s.update_node c l p
  | .removeNode c l => s.remove_node c l
  | .disconnectNode c => s.disconnect_node c
  | .updateNodeLocation nid loc => s.update_node_location nid loc
  | .drainAllFeeds => (s.drain_updates_for_all_feeds).1
  | .drainChainUpdates => (s.drain_chain_updates).1
  | .updateAddedNodesMessages => s.update_added_nodes_messages

/-- Run a trace of operations. -/
def runOps (s : State) (l : List Op) : State := l.foldl applyOp s

/-! ## Connection-id allocation (`aggregator.rs`)

`AggregatorInternal` holds two `AtomicU64` counters, both constructed with
`AtomicU64::new(1)`; `subscribe_shard` / `subscribe_feed` allocate ids via
`fetch_add(1, Relaxed)`, which returns the previous value and wraps on
`u64` overflow — hence the explicit `% 2 ^ 64`. -/

/-- The two independent counters of `AggregatorInternal`, as left by
`Aggregator::spawn`. -/
structure AggregatorCounters where
  shard_conn_id : Nat := 1
  feed_conn_id : Nat := 1
deriving DecidableEq

/-- `fetch_add(1, Relaxed)` on a `u64`: returns the previous value and
stores the wrapped successor. -/
def fetchAddU64 (c : Nat) : Nat × Nat := (c, (c + 1) % 2 ^ 64)

/-- `Aggregator::subscribe_shard`: allocate the connection id tagged onto
every message of the returned sink. -/
def subscribe_shard (a : AggregatorCounters) : Nat × AggregatorCounters :=
  let r := fetchAddU64 a.shard_conn_id
  (r.1, { a with shard_conn_id := r.2 })

/-- `Aggregator::subscribe_feed`: allocate the connection id returned to
the transport. -/
def subscribe_feed (a : AggregatorCounters) : Nat × AggregatorCounters :=
  let r := fetchAddU64 a.feed_conn_id
  (r.1, { a with feed_conn_id := r.2 })

/-- The counters after `n` shard subscriptions (and no feed ones). -/
def countersAfterShardSubs : Nat → AggregatorCounters
  | 0 => {}
  | n + 1 => (subscribe_shard (countersAfterShardSubs n)).2

/-- The counters after `n` feed subscriptions (and no shard ones). -/
def countersAfterFeedSubs : Nat → AggregatorCounters
  | 0 => {}
  | n + 1 => (subscribe_feed (countersAfterFeedSubs n)).2

/-- The id handed to the k-th shard subscription (`k ≥ 1`). -/
def nthShardId (k : Nat) : Nat :=
  (subscribe_shard (countersAfterShardSubs (k - 1))).1

/-- The id handed to the k-th feed subscription (`k ≥ 1`). -/
def nthFeedId (k : Nat) : Nat :=
  (subscribe_feed (countersAfterFeedSubs (k - 1))).1

/-! ### Closed forms for the counters -/

theorem countersAfterShardSubs_closed (n : Nat) :
    countersAfterShardSubs n =
      { shard_conn_id := (1 + n) % 2 ^ 64, feed_conn_id := 1 } := by
  induction n with
  | zero => rfl
  | succ n ih =>
    have h1 : (1 : Nat) % 2 ^ 64 = 1 := Nat.mod_eq_of_lt (by norm_num)
    simp only [countersAfterShardSubs, ih, subscribe_shard, fetchAddU64]
    congr 1
    conv_rhs => rw [show 1 + (n + 1) = 1 + n + 1 from by omega,
      Nat.add_mod (1 + n) 1, h1]

theorem countersAfterFeedSubs_closed (n : Nat) :
    countersAfterFeedSubs n =
      { shard_conn_id := 1, feed_conn_id := (1 + n) % 2 ^ 64 } := by
  induction n with
  | zero => rfl
  | succ n ih =>
    have h1 : (1 : Nat) % 2 ^ 64 = 1 := Nat.mod_eq_of_lt (by norm_num)
    simp only [countersAfterFeedSubs, ih, subscribe_feed, fetchAddU64]
    congr 1
    conv_rhs => rw [show 1 + (n + 1) = 1 + n + 1 from by omega,
      Nat.add_mod (1 + n) 1, h1]

theorem nthShardId_closed (k : Nat) : nthShardId k = (1 + (k - 1)) % 2 ^ 64 := by
  unfold nthShardId
  rw [countersAfterShardSubs_closed]
  rfl

theorem nthFeedId_closed (k : Nat) : nthFeedId k = (1 + (k - 1)) % 2 ^ 64 := by
  unfold nthFeedId
  rw [countersAfterFeedSubs_closed]
  rfl

/-- C9, counterexample: the `u64` counters wrap, so a connection id IS
eventually reused within a process lifetime — the `2 ^ 64 + 1`-st shard
subscription receives the same `ConnId` (namely `1`) as the first one,
refuting "no id is ever reused" and "strictly increasing". -/
theorem c9_counterexample_connid_reused :
    nthShardId (2 ^ 64 + 1) = nthShardId 1 ∧ (2 ^ 64 + 1 : Nat) ≠ 1 := by
  constructor
  · rw [nthShardId_closed, nthShardId_closed]
    simp only [Nat.add_sub_cancel]
    rw [Nat.add_mod_right 1 (2 ^ 64)]
  · norm_num

/-- C9 (amended): shard and feed connection ids come from two independent
counters starting at 1 and bumped by a wrapping `fetch_add(1)`; for every
`k` with `1 ≤ k < 2 ^ 64` the k-th shard subscription receives `ConnId k`
and the k-th feed subscription receives `ConnId k` (so ids are unique
until the `u64` counter wraps), and subscribing a feed never perturbs the
shard counter nor vice versa. -/
theorem c9_connid_allocation (k : Nat) (h1 : 1 ≤ k) (h2 : k < 2 ^ 64) :
    nthShardId k = k ∧ nthFeedId k = k ∧
      (∀ a : AggregatorCounters,
        (subscribe_feed a).2.shard_conn_id = a.shard_conn_id ∧
          (subscribe_shard a).2.feed_conn_id = a.feed_conn_id) := by
  have hk : 1 + (k - 1) = k := by omega
  refine ⟨?_, ?_, ?_⟩
  · rw [nthShardId_closed, hk, Nat.mod_eq_of_lt h2]
  · rw [nthFeedId_closed, hk, Nat.mod_eq_of_lt h2]
  · intro a
    exact ⟨rfl, rfl⟩

/-- Witness for `c9_connid_allocation` at `k = 3`. -/
theorem c9_connid_allocation_witness :
    (1 ≤ 3 ∧ 3 < 2 ^ 64) ∧
      (nthShardId 3 = 3 ∧ nthFeedId 3 = 3 ∧
        (∀ a : AggregatorCounters,
          (subscribe_feed a).2.shard_conn_id = a.shard_conn_id ∧
            (subscribe_shard a).2.feed_conn_id = a.feed_conn_id)) :=
  ⟨⟨by norm_num, by norm_num⟩, c9_connid_allocation 3 (by norm_num) (by norm_num)⟩

/-! ## Observation helpers on drain output and batch state -/

/-- All messages drained for chain `g`, in order. -/
def groupMsgs (out : List (Nat × List (List FeedMsg))) (g : Nat) : List FeedMsg :=
  (out.filter fun p => decide (p.1 = g)).flatMap fun p => p.2.flatten

/-- Does a feed message mention the chain-local node id `lid`? -/
def aboutLid (lid : Nat) : FeedMsg → Bool
  | .removedChain _ => false
  | .addedChain _ _ _ _ => false
  | .removedNode l => decide (l = lid)
  | .addedNode l _ => decide (l = lid)
  | .locatedNode l _ => decide (l = lid)
  | .systemConnectedMsg l _ => decide (l = lid)
  | .systemIntervalMsg l _ => decide (l = lid)
  | .blockImportMsg l _ => decide (l = lid)
  | .notifyFinalizedMsg l _ => decide (l = lid)
  | .afgAuthoritySetMsg l _ => decide (l = lid)
  | .finalizedBlock l _ _ => decide (l = lid)
  | .staleNode l => decide (l = lid)

/-- Boolean check: some NodeId is pending in both `added_nodes` and
`updated_nodes` of the same chain's batch. -/
def State.addedUpdatedOverlap (s : State) : Bool :=
  s.chains.any fun p =>
    p.2.added_nodes.any fun q =>
      p.2.updated_nodes.any fun r => decide (r.1 = q.1)

/-- Boolean check: in every chain's batch, no NodeId is pending in both
`added_nodes` and `removed_nodes`. -/
def State.addedRemovedDisjoint (s : State) : Bool :=
  s.chains.all fun p =>
    p.2.added_nodes.all fun q => !decide (q.1 ∈ p.2.removed_nodes)

/-! ## Concrete traces used by the counterexamples -/

/-- Details shared by the concrete traces: every node reports chain
label `"A"`. -/
def exDetails : NodeDetails := { chain_name := "A", name := 0 }

/-- A fresh state: empty denylist, chain `5` first-party (quota
irrelevant), node data enabled, no persisted metadata. -/
def exInit : State := State.new [] 0 true [] [5]

/-- C1 trace: one node on chain 5, owned by shard connection 1, which
then disconnects. -/
def c1ops : List Op := [.addNode 5 1 10 exDetails, .disconnectNode 1]

/-- C1: the claim fails on the code.  When the disconnecting shard's nodes
cover the chain's entire recorded `node_count`, `remove_nodes` takes the
whole-chain shortcut: it drops the chain's batch entry and records the
hash in `removed_chains`, but never calls `node_ids.remove_by_left` nor
`state.remove_node`.  After `disconnect_node(1)` the identity map still
holds the entry with right-component ConnId 1 and the node is still live
in the inner model, even though the chain was announced removed. -/
theorem c1_disconnect_leaves_identity_and_model_entries :
    (runOps exInit c1ops).node_ids = [((5, 0), (1, 10))] ∧
      (runOps exInit c1ops).state.get_chain_by_node_id (5, 0) = some 5 ∧
      (runOps exInit c1ops).removed_chains = [5] ∧
      lookupA (runOps exInit c1ops).chains 5 = none := by decide

/-- C2 counterexample, first half of the trace: five nodes on chain 5 and
a tick, so `highest_node_count = 5` is held in memory and persisted. -/
def c2prefix : List Op :=
  [.addNode 5 1 10 exDetails, .addNode 5 1 11 exDetails, .addNode 5 1 12 exDetails,
   .addNode 5 1 13 exDetails, .addNode 5 1 14 exDetails, .drainAllFeeds]

/-- C2 counterexample, full trace: three individual removals, then a
disconnect that takes the whole-chain shortcut (deleting the batch entry
and leaking two model nodes), then a re-admission that recreates the
entry with `highest_node_count` restarted from the current count, and a
tick that writes the smaller value through to metadata. -/
def c2full : List Op :=
  c2prefix ++
    [.removeNode 1 10, .removeNode 1 11, .removeNode 1 12,
     .disconnectNode 1, .addNode 5 2 20 exDetails, .drainAllFeeds]

/-- C2, counterexample: after `c2prefix` chain 5 holds (and has persisted)
`highest_node_count = 5`; after the continuation `c2full` the same chain
holds — and has written through to metadata — `highest_node_count = 3 < 5`.
`highest_node_count` is therefore not monotonic non-decreasing within one
process lifetime. -/
theorem c2_counterexample_highest_drops :
    (lookupA (runOps exInit c2prefix).metadata 5 = some 5 ∧
        (lookupA (runOps exInit c2prefix).chains 5).map
          ChainUpdates.highest_node_count = some 5) ∧
      (lookupA (runOps exInit c2full).metadata 5 = some 3 ∧
        (lookupA (runOps exInit c2full).chains 5).map
          ChainUpdates.highest_node_count = some 3) ∧
      3 < 5 := by decide

/-- C3 trace: admit a node and then send it one payload in the same tick. -/
def c3ops : List Op := [.addNode 5 1 10 exDetails, .updateNode 1 10 (.systemInterval 7)]

/-- C3, counterexample: `update_node` does not remove the node from
`added_nodes`, so a node admitted and updated within the same tick is
pending in both `added_nodes` and `updated_nodes`:
`added ∩ updated.keys ≠ ∅`. -/
theorem c3_counterexample_added_updated_overlap :
    (runOps exInit c3ops).addedUpdatedOverlap = true := by decide

/-- C4 trace: 33 nodes on chain 5, then rebuild the roster. -/
def c4ops : List Op :=
  ((List.range 33).map fun i => Op.addNode 5 1 (100 + i) exDetails) ++
    [.updateAddedNodesMessages]

set_option maxRecDepth 40000 in
/-- C4, counterexample: roster chunks group up to 64 *nodes*, and each
node pushes `AddedNode` plus `FinalizedBlock` (plus `StaleNode` when
stale); 33 fresh nodes produce a single chunk of 66 logical messages,
exceeding 64. -/
theorem c4_counterexample_roster_chunk_66 :
    (lookupA (runOps exInit c4ops).chain_nodes 5).map
        (fun cs => cs.map List.length) = some [66] ∧
      64 < 66 := by decide

/-- C5 trace: a pre-existing node keeps the chain alive; node X
(shard-local 11, slot 1) is admitted and removed within the same tick. -/
def c5ops : List Op :=
  [.addNode 5 1 10 exDetails, .addNode 5 1 11 exDetails, .removeNode 1 11]

set_option maxRecDepth 40000 in
/-- C5, counterexample: admitting X and removing it before the next drain
does NOT cancel to silence — `remove_nodes` unconditionally inserts X into
`removed_nodes`, so the next `drain_chain_updates` emits `RemovedNode`
for a node the feeds never saw. -/
theorem c5_counterexample_removed_message_emitted :
    (groupMsgs ((runOps exInit c5ops).drain_chain_updates).2 5).any
      (fun m => decide (m = FeedMsg.removedNode 1)) = true := by decide

/-! ## C8: error paths do not mutate the batched state -/

theorem removeByRight_of_getByRight_none {m : List (NodeId × (Nat × Nat))}
    {r : Nat × Nat} (h : getByRight m r = none) : removeByRight m r = (none, m) := by
  unfold getByRight at h
  unfold removeByRight
  cases hf : m.find? fun p => decide (p.2 = r) with
  | none => rfl
  | some p => rw [hf] at h; simp at h

/-- C8: error paths are no-ops on the batched state.  An `update_node` or
`remove_node` whose `(ConnId, ShardNodeId)` pair is absent from the
identity map leaves the state unchanged, and an `add_node` denied by the
inner model (over quota or denylist) leaves the state unchanged — in
particular the identity map, the per-chain `ChainUpdates` batches and
`removed_chains` are untouched. -/
theorem c8_error_paths_noop (s1 s2 s3 : State) (c1 l1 c2 l2 c3 l3 g : Nat)
    (p : Payload) (d : NodeDetails)
    (h1 : getByRight s1.node_ids (c1, l1) = none)
    (h2 : getByRight s2.node_ids (c2, l2) = none)
    (h3 : (s3.state.add_node g d).1 = .chainOverQuota ∨
      (s3.state.add_node g d).1 = .chainOnDenyList) :
    s1.update_node c1 l1 p = s1 ∧ s2.remove_node c2 l2 = s2 ∧
      (s3.add_node g c3 l3 d).1 = s3 := by
  refine ⟨?_, ?_, ?_⟩
  · unfold State.update_node
    rw [h1]
  · unfold State.remove_node
    rw [removeByRight_of_getByRight_none h2]
  · unfold State.add_node
    rcases hadd : s3.state.add_node g d with ⟨res, st'⟩
    rw [hadd] at h3
    rcases h3 with h3 | h3 <;> simp at h3 <;> rw [h3]

/-- A state whose denylist traps the candidate label of `exDetails`. -/
def c8deny : State := State.new ["A"] 0 true [] []

/-- Witness for `c8_error_paths_noop`: a fresh state has an empty identity
map, and admission of a node labelled `"A"` against denylist `["A"]` is
denied. -/
theorem c8_error_paths_noop_witness :
    (getByRight exInit.node_ids (1, 2) = none ∧
        getByRight exInit.node_ids (3, 4) = none ∧
        ((c8deny.state.add_node 7 exDetails).1 = .chainOverQuota ∨
          (c8deny.state.add_node 7 exDetails).1 = .chainOnDenyList)) ∧
      (exInit.update_node 1 2 (.systemInterval 0) = exInit ∧
        exInit.remove_node 3 4 = exInit ∧
        (c8deny.add_node 7 9 10 exDetails).1 = c8deny) :=
  ⟨⟨by decide, by decide, Or.inr (by decide)⟩,
    c8_error_paths_noop exInit exInit c8deny 1 2 3 4 9 10 7
      (.systemInterval 0) exDetails (by decide) (by decide) (Or.inr (by decide))⟩

/-! ## C7: fixed per-node emission order -/

/-- Classification of feed messages by per-node update kind. -/
inductive MsgKind where
  | located
  | connected
  | interval
  | imported
  | finality
  | authority
  | other
deriving DecidableEq

/-- The kind of a feed message. -/
def kindOf : FeedMsg → MsgKind
  | .locatedNode _ _ => .located
  | .systemConnectedMsg _ _ => .connected
  | .systemIntervalMsg _ _ => .interval
  | .blockImportMsg _ _ => .imported
  | .notifyFinalizedMsg _ _ => .finality
  | .afgAuthoritySetMsg _ _ => .authority
  | _ => .other

/-- The fixed slot order of `drain_chain_updates` for one updated node. -/
def slotSequence : List MsgKind :=
  [.located, .connected, .interval, .imported, .finality, .authority]

/-- Is the slot of the given kind set in a `NodeUpdates`? -/
def slotSet (nu : NodeUpdates) : MsgKind → Bool
  | .located => nu.location.isSome
  | .connected => nu.system_connected.isSome
  | .interval => nu.system_interval.isSome
  | .imported => nu.block_import.isSome
  | .finality => nu.notify_finalized.isSome
  | .authority => nu.afg_authority_set.isSome
  | .other => false

/-- C7: for every pending `NodeUpdates` entry, `drain_chain_updates`
(through `emitNode`) emits the node's per-kind outputs exactly in the
fixed order Located, SystemConnected, SystemInterval, BlockImport,
NotifyFinalized, AfgAuthoritySet, skipping every unset slot. -/
theorem c7_fixed_emission_order (nid : NodeId) (nu : NodeUpdates) :
    (State.emitNode nid nu).map kindOf = slotSequence.filter (slotSet nu) := by
  obtain ⟨sc, si, bi, nf, aas, loc⟩ := nu
  cases sc <;> cases si <;> cases bi <;> cases nf <;> cases aas <;> cases loc <;> rfl

/-! ## C4 (amended): chunk bounds -/

theorem length_flatMap_le {β γ : Type _} (c : List β)
    (f : β → List γ) (k : Nat) (h : ∀ x ∈ c, (f x).length ≤ k) :
    (c.flatMap f).length ≤ k * c.length := by
  induction c with
  | nil => simp
  | cons x r ih =>
    simp only [List.flatMap_cons, List.length_append, List.length_cons]
    have h1 := h x (List.mem_cons_self _ _)
    have h2 := ih fun y hy => h y (List.mem_cons_of_mem _ hy)
    have : k * (r.length + 1) = k * r.length + k := by ring
    omega

theorem emitNode_length_le (nid : NodeId) (nu : NodeUpdates) :
    (State.emitNode nid nu).length ≤ 6 := by
  obtain ⟨sc, si, bi, nf, aas, loc⟩ := nu
  cases sc <;> cases si <;> cases bi <;> cases nf <;> cases aas <;> cases loc <;>
    simp [State.emitNode, cascade]

theorem rosterEntry_length_le (e : Nat × Option Node) :
    (State.rosterEntry e).length ≤ 3 := by
  rcases e with ⟨i, onode⟩
  cases onode with
  | none => simp [State.rosterEntry]
  | some n => cases hn : n.stale <;> simp [State.rosterEntry, hn]

/-- C4 (amended): every chunk groups at most 64 *node entries*.
Removed-node and added-node chunks therefore hold at most 64 logical
messages; an updated-node chunk holds the emissions of at most 64 pending
entries (at most 6 messages per entry, i.e. ≤ 384, in this model's
one-message-per-kind cascade); a roster chunk holds at most 3 messages
per node, i.e. ≤ 192.  The "at most 64 logical messages" bound of the
claim holds only for the removed- and added-node chunks. -/
theorem c4_chunk_bounds (s : State) (u : ChainUpdates)
    (hs : s.send_node_data = true) :
    ((State.removedChunks u).all fun c => decide (c.length ≤ 64)) = true ∧
      ((State.addedChunks u).all fun c => decide (c.length ≤ 64)) = true ∧
      ((chunksOf State.MSGS_PER_WS_MSG u.updated_nodes).all
        fun c => decide (c.length ≤ 64)) = true ∧
      ((State.updatedChunks u).all fun c => decide (c.length ≤ 384)) = true ∧
      ((s.update_added_nodes_messages).chain_nodes.all
        fun p => p.2.all fun c => decide (c.length ≤ 192)) = true := by
  have h64 : (1 : Nat) ≤ 64 := by norm_num
  refine ⟨?_, ?_, ?_, ?_, ?_⟩
  · rw [List.all_eq_true]
    intro c hc
    rcases List.mem_map.1 hc with ⟨c0, hc0, rfl⟩
    simp only [decide_eq_true_eq, List.length_map]
    exact length_le_of_mem_chunksOf h64 _ c0 hc0
  · rw [List.all_eq_true]
    intro c hc
    rcases List.mem_map.1 hc with ⟨c0, hc0, rfl⟩
    simp only [decide_eq_true_eq, List.length_map]
    exact length_le_of_mem_chunksOf h64 _ c0 hc0
  · rw [List.all_eq_true]
    intro c hc
    simp only [decide_eq_true_eq]
    exact length_le_of_mem_chunksOf h64 _ c hc
  · rw [List.all_eq_true]
    intro c hc
    rcases List.mem_map.1 hc with ⟨c0, hc0, rfl⟩
    simp only [decide_eq_true_eq]
    have hb := length_flatMap_le c0 (fun p => State.emitNode p.1 p.2) 6
      (fun x _ => emitNode_length_le x.1 x.2)
    have hc64 : c0.length ≤ 64 := length_le_of_mem_chunksOf h64 _ c0 hc0
    calc (c0.flatMap fun p => State.emitNode p.1 p.2).length
        ≤ 6 * c0.length := hb
      _ ≤ 6 * 64 := by omega
      _ ≤ 384 := by norm_num
  · rw [List.all_eq_true]
    intro p hp
    rw [List.all_eq_true]
    intro c hc
    simp only [decide_eq_true_eq]
    unfold State.update_added_nodes_messages at hp
    rw [hs] at hp
    simp only [Bool.not_true, Bool.false_eq_true, if_false] at hp
    rcases List.mem_map.1 hp with ⟨q, _, rfl⟩
    simp only at hc
    rcases List.mem_filter.1 hc with ⟨hc1, _⟩
    rcases List.mem_map.1 hc1 with ⟨c0, hc0, rfl⟩
    have hb := length_flatMap_le c0 State.rosterEntry 3
      (fun x _ => rosterEntry_length_le x)
    have hc64 : c0.length ≤ 64 := length_le_of_mem_chunksOf h64 _ c0 hc0
    calc (State.rosterChunk c0).length
        ≤ 3 * c0.length := hb
      _ ≤ 3 * 64 := by omega
      _ ≤ 192 := by norm_num

/-! ## Entry evolution under removals

`remove_nodes` only ever deletes a chain's batch entry or rewrites its
`chain_label`, `node_count` and delta sets; `has_chain_label_changed` and
`highest_node_count` are never written by a removal.  The relation below
captures this and composes over the nested folds. -/

/-- Every chain entry of `t` either vanished, or evolved from the entry of
`s` at the same key keeping the label-changed flag and the high-water
mark. -/
def EntryEvol (s t : State) : Prop :=
  ∀ g : Nat,
    lookupA t.chains g = none ∨
      ∃ u u', lookupA s.chains g = some u ∧ lookupA t.chains g = some u' ∧
        u'.has_chain_label_changed = u.has_chain_label_changed ∧
        u'.highest_node_count = u.highest_node_count

theorem entryEvol_of_chains_eq {s t : State} (h : t.chains = s.chains) :
    EntryEvol s t := by
  intro g
  rw [h]
  cases hl : lookupA s.chains g with
  | none => exact Or.inl rfl
  | some u => exact Or.inr ⟨u, u, rfl, rfl, rfl, rfl⟩

theorem entryEvol_refl (s : State) : EntryEvol s s :=
  entryEvol_of_chains_eq rfl

theorem entryEvol_trans {a b c : State} (h1 : EntryEvol a b) (h2 : EntryEvol b c) :
    EntryEvol a c := by
  intro g
  rcases h2 g with h2g | ⟨u, u', hb, hc, hf, hh⟩
  · exact Or.inl h2g
  · rcases h1 g with h1g | ⟨w, w', ha, hb', hf', hh'⟩
    · rw [h1g] at hb; exact absurd hb (by simp)
    · rw [hb'] at hb
      injection hb with hb
      subst hb
      exact Or.inr ⟨w, u', ha, hc, hf.trans hf', hh.trans hh'⟩

theorem entryEvol_removeGidStep (g : Nat) (s : State) (nid : NodeId) :
    EntryEvol s (State.removeGidStep g s nid) := by
  unfold State.removeGidStep
  dsimp only
  split
  · exact entryEvol_of_chains_eq rfl
  · split
    · exact entryEvol_of_chains_eq rfl
    · rename_i r st' hr u hl
      intro g'
      by_cases hg : g' = g
      · subst hg
        exact Or.inr ⟨u, _, hl, lookupA_insertA_self _ _ _,
          by split <;> rfl, by split <;> rfl⟩
      · rw [lookupA_insertA_ne _ _ _ _ hg]
        cases hl2 : lookupA s.chains g' with
        | none => exact Or.inl rfl
        | some w => exact Or.inr ⟨w, w, rfl, rfl, rfl, rfl⟩

theorem entryEvol_removeChainGroup (s : State) (g : Nat) (gids : List NodeId) :
    EntryEvol s (State.removeChainGroup s g gids) := by
  unfold State.removeChainGroup
  cases hl : lookupA s.chains g with
  | none => exact entryEvol_refl s
  | some u =>
    by_cases hc : u.node_count = gids.length
    · simp only [if_pos hc]
      intro g'
      by_cases hg : g' = g
      · subst hg
        exact Or.inl (lookupA_eraseA_self _ _)
      · rw [lookupA_eraseA_ne _ _ _ hg]
        cases hl' : lookupA s.chains g' with
        | none => exact Or.inl rfl
        | some w => exact Or.inr ⟨w, w, rfl, rfl, rfl, rfl⟩
    · simp only [if_neg hc]
      exact foldl_rel entryEvol_refl (fun _ _ _ => entryEvol_trans) gids s
        (fun t x _ => entryEvol_removeGidStep g t x)

theorem entryEvol_remove_nodes (s : State) (ids : List NodeId) :
    EntryEvol s (s.remove_nodes ids) := by
  unfold State.remove_nodes
  exact foldl_rel entryEvol_refl (fun _ _ _ => entryEvol_trans) _ s
    (fun t p _ => entryEvol_removeChainGroup t p.1 p.2)

theorem entryEvol_remove_node (s : State) (c l : Nat) :
    EntryEvol s (s.remove_node c l) := by
  unfold State.remove_node
  rcases hr : removeByRight s.node_ids (c, l) with ⟨o, m'⟩
  cases o with
  | none => exact entryEvol_refl s
  | some nid =>
    exact entryEvol_trans (entryEvol_of_chains_eq rfl)
      (entryEvol_remove_nodes { s with node_ids := m' } [nid])

theorem entryEvol_disconnect_node (s : State) (c : Nat) :
    EntryEvol s (s.disconnect_node c) :=
  entryEvol_remove_nodes s _

/-- Lookup through a key-preserving value map. -/
theorem lookupA_map_value {α β : Type _} (m : List (Nat × α)) (f : Nat → α → β)
    (k : Nat) :
    lookupA (m.map fun p => (p.1, f p.1 p.2)) k = (lookupA m k).map (f k) := by
  induction m with
  | nil => rfl
  | cons p r ih =>
    rcases p with ⟨k', v⟩
    by_cases h : k' = k
    · subst h; simp [lookupA_cons]
    · simp [lookupA_cons, h, ih]

/-! ## C2 (amended) and C10 -/

/-- C2 (amended): `highest_node_count` is monotone non-decreasing for a
chain *as long as its batch entry exists*: every single public operation
either preserves or raises the recorded value, or deletes the entry
altogether (the whole-chain removal shortcut).  The original claim fails
only because a full-chain removal deletes the entry, after which a
re-admission restarts the high-water mark from the then-current count —
possibly below the previous value — and the next drain writes the smaller
value through to metadata. -/
theorem highest_le_insertA (m : List (Nat × ChainUpdates)) (g0 : Nat)
    (u2 : ChainUpdates)
    (h : ((lookupA m g0).getD {}).highest_node_count ≤ u2.highest_node_count)
    {g : Nat} {u u' : ChainUpdates}
    (hu : lookupA m g = some u) (hu' : lookupA (insertA m g0 u2) g = some u') :
    u.highest_node_count ≤ u'.highest_node_count := by
  by_cases hg : g = g0
  · subst hg
    rw [lookupA_insertA_self] at hu'
    injection hu' with hu'
    subst hu'
    rw [hu] at h
    simpa using h
  · rw [lookupA_insertA_ne _ _ _ _ hg] at hu'
    rw [hu'] at hu
    injection hu with hu
    rw [hu]

theorem c2_highest_monotone_per_op (s : State) (op : Op) (g : Nat)
    (u u' : ChainUpdates)
    (hu : lookupA s.chains g = some u)
    (hu' : lookupA (applyOp s op).chains g = some u') :
    u.highest_node_count ≤ u'.highest_node_count := by
  have hsame : lookupA s.chains g = some u' →
      u.highest_node_count ≤ u'.highest_node_count := by
    intro hu2
    rw [hu2] at hu
    injection hu with hu
    rw [hu]
  cases op with
  | addNode g0 c l d =>
    simp only [applyOp] at hu'
    unfold State.add_node at hu'
    split at hu'
    · exact hsame hu'
    · exact hsame hu'
    · exact highest_le_insertA s.chains g0 _
        (by split <;> exact Nat.le_max_left _ _) hu hu'
  | updateNode c l p =>
    simp only [applyOp] at hu'
    unfold State.update_node at hu'
    split at hu'
    · exact hsame hu'
    · split at hu'
      · exact hsame hu'
      · split at hu'
        · exact hsame hu'
        · exact highest_le_insertA s.chains _ _ (by exact Nat.le_refl _) hu hu'
  | removeNode c l =>
    simp only [applyOp] at hu'
    rcases entryEvol_remove_node s c l g with h | ⟨w, w', h1, h2, _, hh⟩
    · rw [h] at hu'; exact absurd hu' (by simp)
    · rw [hu'] at h2; injection h2 with h2
      rw [hu] at h1; injection h1 with h1
      subst h1; subst h2
      exact Nat.le_of_eq hh.symm
  | disconnectNode c =>
    simp only [applyOp] at hu'
    rcases entryEvol_disconnect_node s c g with h | ⟨w, w', h1, h2, _, hh⟩
    · rw [h] at hu'; exact absurd hu' (by simp)
    · rw [hu'] at h2; injection h2 with h2
      rw [hu] at h1; injection h1 with h1
      subst h1; subst h2
      exact Nat.le_of_eq hh.symm
  | updateNodeLocation nid loc =>
    simp only [applyOp] at hu'
    unfold State.update_node_location at hu'
    split at hu'
    · split at hu'
      · split at hu'
        · exact hsame hu'
        · exact highest_le_insertA s.chains _ _ (by exact Nat.le_refl _) hu hu'
      · exact hsame hu'
    · exact hsame hu'
  | drainAllFeeds =>
    simp only [applyOp] at hu'
    unfold State.drain_updates_for_all_feeds at hu'
    simp only at hu'
    have hmap := lookupA_map_value s.chains
      (fun _ v => { v with has_chain_label_changed := false }) g
    rw [hmap, hu] at hu'
    injection hu' with hu'
    rw [← hu']
  | drainChainUpdates =>
    simp only [applyOp] at hu'
    unfold State.drain_chain_updates at hu'
    simp only at hu'
    have hmap := lookupA_map_value s.chains
      (fun _ v => if v.node_count = 0 then v
        else { v with added_nodes := [], removed_nodes := [], updated_nodes := [] }) g
    rw [hmap, hu] at hu'
    injection hu' with hu'
    rw [← hu']
    dsimp only
    split <;> rfl
  | updateAddedNodesMessages =>
    simp only [applyOp] at hu'
    unfold State.update_added_nodes_messages at hu'
    split at hu'
    · exact hsame hu'
    · exact hsame hu'

/-- Witness for `c2_highest_monotone_per_op`: adding a second node to a
one-node chain raises the recorded high-water mark from 1 to 2. -/
theorem c2_highest_monotone_per_op_witness :
    (lookupA (runOps exInit [.addNode 5 1 10 exDetails]).chains 5 =
        some ((lookupA (runOps exInit [.addNode 5 1 10 exDetails]).chains 5).getD {}) ∧
      lookupA (applyOp (runOps exInit [.addNode 5 1 10 exDetails])
          (.addNode 5 1 11 exDetails)).chains 5 =
        some ((lookupA (applyOp (runOps exInit [.addNode 5 1 10 exDetails])
          (.addNode 5 1 11 exDetails)).chains 5).getD {})) ∧
      ((lookupA (runOps exInit [.addNode 5 1 10 exDetails]).chains 5).getD
          {}).highest_node_count ≤
        ((lookupA (applyOp (runOps exInit [.addNode 5 1 10 exDetails])
          (.addNode 5 1 11 exDetails)).chains 5).getD {}).highest_node_count :=
  ⟨⟨by decide, by decide⟩,
    c2_highest_monotone_per_op (runOps exInit [.addNode 5 1 10 exDetails])
      (.addNode 5 1 11 exDetails) 5 _ _ (by decide) (by decide)⟩

theorem getD_flag_insertA (m : List (Nat × ChainUpdates)) (g0 : Nat)
    (u2 : ChainUpdates)
    (h : u2.has_chain_label_changed =
      ((lookupA m g0).getD {}).has_chain_label_changed) (g : Nat) :
    ((lookupA (insertA m g0 u2) g).map
        ChainUpdates.has_chain_label_changed).getD false =
      ((lookupA m g).map ChainUpdates.has_chain_label_changed).getD false := by
  by_cases hg : g = g0
  · subst hg
    rw [lookupA_insertA_self]
    cases hl : lookupA m g <;> rw [hl] at h <;> simp [h]
  · rw [lookupA_insertA_ne _ _ _ _ hg]

/-- C10: discipline of `has_chain_label_changed`.  (1) A successful
`add_node` overwrites the flag of the target chain with exactly that
add's label-changed result (and a denied add leaves every flag alone);
(2)–(3) `remove_node` and `disconnect_node` never write the flag of any
surviving entry, even when the removal changed the chain's displayed
label; (4) `drain_updates_for_all_feeds` leaves every surviving flag
`false`; (5)–(6) `update_node` and `update_node_location` never change
any flag (an entry they create carries flag `false`). -/
theorem c10_label_flag_discipline :
    (∀ (s : State) (g c l : Nat) (d : NodeDetails),
      (lookupA ((s.add_node g c l d).1.chains) g).map
          ChainUpdates.has_chain_label_changed =
        match s.state.add_node g d with
        | (.nodeAddedToChain det, _) => some det.has_chain_label_changed
        | _ => (lookupA s.chains g).map ChainUpdates.has_chain_label_changed) ∧
    (∀ (s : State) (c l g : Nat),
      lookupA (s.remove_node c l).chains g = none ∨
        (lookupA (s.remove_node c l).chains g).map
            ChainUpdates.has_chain_label_changed =
          (lookupA s.chains g).map ChainUpdates.has_chain_label_changed) ∧
    (∀ (s : State) (c g : Nat),
      lookupA (s.disconnect_node c).chains g = none ∨
        (lookupA (s.disconnect_node c).chains g).map
            ChainUpdates.has_chain_label_changed =
          (lookupA s.chains g).map ChainUpdates.has_chain_label_changed) ∧
    (∀ (s : State) (g : Nat),
      ((lookupA ((s.drain_updates_for_all_feeds).1.chains) g).map
        ChainUpdates.has_chain_label_changed).getD false = false) ∧
    (∀ (s : State) (c l : Nat) (p : Payload) (g : Nat),
      ((lookupA (s.update_node c l p).chains g).map
          ChainUpdates.has_chain_label_changed).getD false =
        ((lookupA s.chains g).map ChainUpdates.has_chain_label_changed).getD false) ∧
    (∀ (s : State) (nid : NodeId) (loc : Option Nat) (g : Nat),
      ((lookupA (s.update_node_location nid loc).chains g).map
          ChainUpdates.has_chain_label_changed).getD false =
        ((lookupA s.chains g).map ChainUpdates.has_chain_label_changed).getD false) := by
  refine ⟨?_, ?_, ?_, ?_, ?_, ?_⟩
  · intro s g c l d
    unfold State.add_node
    rcases hadd : s.state.add_node g d with ⟨res, st'⟩
    cases res with
    | chainOverQuota => rfl
    | chainOnDenyList => rfl
    | nodeAddedToChain det =>
      simp only
      rw [lookupA_insertA_self]
      rfl
  · intro s c l g
    rcases entryEvol_remove_node s c l g with h | ⟨w, w', h1, h2, hf, _⟩
    · exact Or.inl h
    · right; rw [h1, h2]; simp [hf]
  · intro s c g
    rcases entryEvol_disconnect_node s c g with h | ⟨w, w', h1, h2, hf, _⟩
    · exact Or.inl h
    · right; rw [h1, h2]; simp [hf]
  · intro s g
    unfold State.drain_updates_for_all_feeds
    simp only
    have hmap := lookupA_map_value s.chains
      (fun _ v => { v with has_chain_label_changed := false }) g
    rw [hmap]
    cases lookupA s.chains g <;> rfl
  · intro s c l p g
    unfold State.update_node
    split
    · rfl
    · split
      · rfl
      · split
        · rfl
        · exact getD_flag_insertA s.chains _ _ (by rfl) g
  · intro s nid loc g
    unfold State.update_node_location
    split
    · split
      · split
        · rfl
        · exact getD_flag_insertA s.chains _ _ (by rfl) g
      · rfl
    · rfl

/-! ## Well-formedness of reachable batched states

Structural invariants maintained by every public operation: chain keys
are unique; every pending NodeId sits under the entry of its own chain
(its genesis-hash component); pending `updated_nodes` keys are unique;
and `added_nodes` and `removed_nodes` are disjoint. -/

/-- Well-formedness of one chain's batch entry, keyed by `g`. -/
def EntryWF (g : Nat) (u : ChainUpdates) : Prop :=
  (∀ p ∈ u.added_nodes, p.1.1 = g) ∧
  (∀ x ∈ u.removed_nodes, x.1 = g) ∧
  (∀ p ∈ u.updated_nodes, p.1.1 = g) ∧
  (u.updated_nodes.map Prod.fst).Nodup ∧
  (∀ p ∈ u.added_nodes, p.1 ∉ u.removed_nodes)

/-- Well-formedness of the whole batch map. -/
def ChainsWF (s : State) : Prop :=
  (keysA s.chains).Nodup ∧ ∀ p ∈ s.chains, EntryWF p.1 p.2

theorem entryWF_empty (g : Nat) : EntryWF g {} := by
  refine ⟨?_, ?_, ?_, ?_, ?_⟩ <;> simp [ChainUpdates.added_nodes,
    ChainUpdates.removed_nodes, ChainUpdates.updated_nodes]

theorem chainsWF_of_chains_eq {s t : State} (h : t.chains = s.chains)
    (hs : ChainsWF s) : ChainsWF t := by
  unfold ChainsWF
  rw [h]
  exact hs

theorem entryWF_of_lookup {s : State} {g : Nat} {u : ChainUpdates}
    (h : ChainsWF s) (hl : lookupA s.chains g = some u) : EntryWF g u :=
  h.2 (g, u) (lookupA_mem hl)

theorem entryWF_getD {s : State} (h : ChainsWF s) (g : Nat) :
    EntryWF g ((lookupA s.chains g).getD {}) := by
  cases hl : lookupA s.chains g with
  | none => exact entryWF_empty g
  | some u => exact entryWF_of_lookup h hl

theorem wf_insert_entry {s : State} {g : Nat} {u : ChainUpdates}
    (h : ChainsWF s) (hu : EntryWF g u) :
    (keysA (insertA s.chains g u)).Nodup ∧
      ∀ p ∈ insertA s.chains g u, EntryWF p.1 p.2 := by
  refine ⟨keysA_nodup_insertA g u h.1, ?_⟩
  intro p hp
  rcases mem_insertA hp with ⟨hm, _⟩ | rfl
  · exact h.2 p hm
  · exact hu

theorem wf_erase_entry {s : State} (h : ChainsWF s) (g : Nat) :
    (keysA (eraseA s.chains g)).Nodup ∧
      ∀ p ∈ eraseA s.chains g, EntryWF p.1 p.2 := by
  refine ⟨keysA_nodup_eraseA g h.1, ?_⟩
  intro p hp
  exact h.2 p (List.mem_filter.1 hp).1

/-- `get_chain_by_node_id` only ever reports the node's own genesis hash. -/
theorem get_chain_eq_fst {st : OrdinaryState} {nid : NodeId} {g : Nat}
    (h : st.get_chain_by_node_id nid = some g) : g = nid.1 := by
  unfold OrdinaryState.get_chain_by_node_id at h
  split at h
  · exact absurd h (by simp)
  · split at h
    · injection h with h
      exact h.symm
    · exact absurd h (by simp)

/-- A successful admission returns an id on the requested chain. -/
theorem state_add_node_id_fst {st : OrdinaryState} {g : Nat} {d : NodeDetails}
    {det : NodeAddedToChain} {st' : OrdinaryState}
    (h : st.add_node g d = (.nodeAddedToChain det, st')) : det.id.1 = g := by
  unfold OrdinaryState.add_node at h
  dsimp only at h
  split at h
  · simp at h
  · split at h
    · simp at h
    · simp only [Prod.mk.injEq] at h
      obtain ⟨h1, _⟩ := h
      injection h1 with h1
      rw [← h1]

theorem chainsWF_add_node {s : State} (h : ChainsWF s) (g c l : Nat)
    (d : NodeDetails) : ChainsWF (s.add_node g c l d).1 := by
  unfold State.add_node
  rcases hadd : s.state.add_node g d with ⟨res, st'⟩
  cases res with
  | chainOverQuota => exact h
  | chainOnDenyList => exact h
  | nodeAddedToChain det =>
    have hid : det.id.1 = g := state_add_node_id_fst hadd
    have h0 : EntryWF g ((lookupA s.chains g).getD {}) := entryWF_getD h g
    have hbranch : EntryWF g (if s.send_node_data = true then
        { (lookupA s.chains g).getD {} with
          removed_nodes := eraseS ((lookupA s.chains g).getD {}).removed_nodes det.id,
          added_nodes := insertA ((lookupA s.chains g).getD {}).added_nodes det.id det.node }
      else (lookupA s.chains g).getD {}) := by
      split
      · obtain ⟨ha, hr, hup, hnd, hdisj⟩ := h0
        refine ⟨?_, ?_, hup, hnd, ?_⟩
        · intro p hp
          rcases mem_insertA hp with ⟨hm, _⟩ | rfl
          · exact ha p hm
          · exact hid
        · intro x hx
          exact hr x (mem_of_mem_eraseS hx)
        · intro p hp hmem
          rcases mem_insertA hp with ⟨hm, _⟩ | rfl
          · exact hdisj p hm (mem_of_mem_eraseS hmem)
          · exact not_mem_eraseS_self _ _ hmem
      · exact h0
    exact wf_insert_entry h hbranch

theorem entryWF_no_sets (g : Nat) (nc hc : Nat) (fl : Bool) (lab : String) :
    EntryWF g ({ node_count := nc, highest_node_count := hc,
                 has_chain_label_changed := fl, chain_label := lab }) := by
  refine ⟨?_, ?_, ?_, ?_, ?_⟩ <;> simp

theorem chainsWF_update_node {s : State} (h : ChainsWF s) (c l : Nat)
    (p0 : Payload) : ChainsWF (s.update_node c l p0) := by
  unfold State.update_node
  split
  · exact h
  · next nid hnid =>
    split
    · exact h
    · split
      · exact h
      · next g0 hchain =>
        have hg : g0 = nid.1 := get_chain_eq_fst hchain
        subst hg
        obtain ⟨ha, hr, hup, hnd, hdisj⟩ := entryWF_getD h nid.1
        refine wf_insert_entry h ⟨ha, hr, ?_, ?_, hdisj⟩
        · intro q hq
          rcases mem_insertA hq with ⟨hm, _⟩ | rfl
          · exact hup q hm
          · rfl
        · exact keysA_nodup_insertA _ _ hnd

theorem chainsWF_update_node_location {s : State} (h : ChainsWF s)
    (nid : NodeId) (loc : Option Nat) :
    ChainsWF (s.update_node_location nid loc) := by
  unfold State.update_node_location
  split
  · split
    · split
      · exact chainsWF_of_chains_eq rfl h
      · next g0 hchain =>
        have hg : g0 = nid.1 := get_chain_eq_fst hchain
        subst hg
        obtain ⟨ha, hr, hup, hnd, hdisj⟩ := entryWF_getD h nid.1
        refine wf_insert_entry h ⟨ha, hr, ?_, ?_, hdisj⟩
        · intro q hq
          rcases mem_insertA hq with ⟨hm, _⟩ | rfl
          · exact hup q hm
          · rfl
        · exact keysA_nodup_insertA _ _ hnd
    · exact chainsWF_of_chains_eq rfl h
  · exact chainsWF_of_chains_eq rfl h

theorem chainsWF_removeGidStep {s : State} (g : Nat) (nid : NodeId)
    (hn : nid.1 = g) (h : ChainsWF s) :
    ChainsWF (State.removeGidStep g s nid) := by
  unfold State.removeGidStep
  dsimp only
  split
  · exact chainsWF_of_chains_eq rfl h
  · split
    · exact chainsWF_of_chains_eq rfl h
    · next u hl =>
      obtain ⟨ha, hr, hup, hnd, hdisj⟩ := entryWF_of_lookup h hl
      refine wf_insert_entry h ?_
      split
      · refine ⟨?_, ?_, ?_, ?_, ?_⟩
        · intro q hq
          exact ha q (List.mem_filter.1 hq).1
        · intro x hx
          rcases mem_insertS hx with hx | rfl
          · exact hr x hx
          · exact hn
        · intro q hq
          exact hup q (List.mem_filter.1 hq).1
        · exact keysA_nodup_eraseA _ hnd
        · intro q hq hqm
          have hq1 := List.mem_filter.1 hq
          have hqne : ¬ q.1 = nid := by simpa using hq1.2
          rcases mem_insertS hqm with hqm | hqme
          · exact hdisj q hq1.1 hqm
          · exact hqne hqme
      · exact ⟨ha, hr, hup, hnd, hdisj⟩

theorem appendToGroup_sound {acc : List (Nat × List NodeId)} {g : Nat}
    {x : NodeId}
    (hacc : ∀ p ∈ acc, ∀ nid ∈ p.2, nid.1 = p.1) (hx : x.1 = g) :
    ∀ p ∈ State.appendToGroup acc g x, ∀ nid ∈ p.2, nid.1 = p.1 := by
  unfold State.appendToGroup
  split
  · intro p hp
    rcases List.mem_append.1 hp with hp | hp
    · exact hacc p hp
    · simp only [List.mem_singleton] at hp
      subst hp
      intro nid hn
      simp only [List.mem_singleton] at hn
      subst hn
      exact hx
  · next gl hgl =>
    intro p hp
    rcases mem_insertA hp with ⟨hm, _⟩ | rfl
    · exact hacc p hm
    · intro nid hn
      rcases List.mem_append.1 hn with hn | hn
      · exact hacc (g, gl) (lookupA_mem hgl) nid hn
      · simp only [List.mem_singleton] at hn
        subst hn
        exact hx

theorem groupByChain_sound (st : OrdinaryState) (ids : List NodeId) :
    ∀ p ∈ State.groupByChain st ids, ∀ nid ∈ p.2, nid.1 = p.1 := by
  unfold State.groupByChain
  refine foldl_preserve
    (fun (acc : List (Nat × List NodeId)) => ∀ p ∈ acc, ∀ nid ∈ p.2, nid.1 = p.1)
    ids [] ?_ ?_
  · intro acc x _ hacc
    cases hc : st.get_chain_by_node_id x with
    | none => simpa [hc] using hacc
    | some g =>
      simp only [hc]
      exact appendToGroup_sound hacc (get_chain_eq_fst hc).symm
  · intro p hp
    simp at hp

theorem chainsWF_removeChainGroup {s : State} (g : Nat) (gids : List NodeId)
    (hg : ∀ nid ∈ gids, nid.1 = g) (h : ChainsWF s) :
    ChainsWF (State.removeChainGroup s g gids) := by
  unfold State.removeChainGroup
  split
  · exact h
  · split
    · exact wf_erase_entry h g
    · exact foldl_preserve ChainsWF gids s
        (fun t x hx ht => chainsWF_removeGidStep g x (hg x hx) ht) h

theorem chainsWF_remove_nodes {s : State} (h : ChainsWF s) (ids : List NodeId) :
    ChainsWF (s.remove_nodes ids) := by
  unfold State.remove_nodes
  refine foldl_preserve ChainsWF _ s ?_ h
  intro t x hx ht
  exact chainsWF_removeChainGroup x.1 x.2 (groupByChain_sound s.state ids x hx) ht

theorem chainsWF_remove_node {s : State} (h : ChainsWF s) (c l : Nat) :
    ChainsWF (s.remove_node c l) := by
  unfold State.remove_node
  rcases hr : removeByRight s.node_ids (c, l) with ⟨o, m'⟩
  cases o with
  | none => exact h
  | some nid =>
    have h2 : ChainsWF { s with node_ids := m' } := chainsWF_of_chains_eq rfl h
    exact chainsWF_remove_nodes h2 [nid]

theorem keysA_map_value {α β : Type _} (m : List (Nat × α)) (f : Nat → α → β) :
    keysA (m.map fun p => (p.1, f p.1 p.2)) = keysA m := by
  induction m with
  | nil => rfl
  | cons p r ih => simp only [List.map_cons, keysA] at ih ⊢; rw [ih]

theorem chainsWF_drainAllFeeds {s : State} (h : ChainsWF s) :
    ChainsWF (s.drain_updates_for_all_feeds).1 := by
  unfold State.drain_updates_for_all_feeds
  refine ⟨?_, ?_⟩
  · have hk := keysA_map_value s.chains
      (fun _ v => { v with has_chain_label_changed := false })
    dsimp only
    rw [hk]
    exact h.1
  · intro p hp
    dsimp only at hp
    rcases List.mem_map.1 hp with ⟨q, hq, rfl⟩
    exact h.2 q hq

theorem chainsWF_drainChainUpdates {s : State} (h : ChainsWF s) :
    ChainsWF (s.drain_chain_updates).1 := by
  unfold State.drain_chain_updates
  refine ⟨?_, ?_⟩
  · have hk := keysA_map_value s.chains
      (fun _ v => if v.node_count = 0 then v
        else { v with added_nodes := [], removed_nodes := [], updated_nodes := [] })
    dsimp only
    rw [hk]
    exact h.1
  · intro p hp
    dsimp only at hp
    rcases List.mem_map.1 hp with ⟨q, hq, rfl⟩
    by_cases hc : q.2.node_count = 0
    · simpa [hc] using h.2 q hq
    · simp only [hc, if_false]
      refine ⟨?_, ?_, ?_, ?_, ?_⟩ <;> simp

theorem chainsWF_roster {s : State} (h : ChainsWF s) :
    ChainsWF s.update_added_nodes_messages := by
  unfold State.update_added_nodes_messages
  split
  · exact h
  · exact chainsWF_of_chains_eq rfl h

theorem chainsWF_new (dl : List String) (mtp : Nat) (send : Bool)
    (md : List (Nat × Nat)) (fp : List Nat) :
    ChainsWF (State.new dl mtp send md fp) := by
  unfold State.new
  dsimp only
  refine foldl_preserve (fun (m : List (Nat × ChainUpdates)) =>
      (keysA m).Nodup ∧ ∀ p ∈ m, EntryWF p.1 p.2) _ [] ?_ ?_
  · intro m x _ hm
    refine ⟨keysA_nodup_insertA _ _ hm.1, ?_⟩
    intro p hp
    rcases mem_insertA hp with ⟨hmem, _⟩ | rfl
    · exact hm.2 p hmem
    · exact entryWF_no_sets x.1 0 x.2 false ""
  · exact ⟨List.nodup_nil, by simp⟩

theorem chainsWF_applyOp {s : State} (h : ChainsWF s) (op : Op) :
    ChainsWF (applyOp s op) := by
  cases op with
  | addNode g c l d => exact chainsWF_add_node h g c l d
  | updateNode c l p => exact chainsWF_update_node h c l p
  | removeNode c l => exact chainsWF_remove_node h c l
  | disconnectNode c => exact chainsWF_remove_nodes h _
  | updateNodeLocation nid loc => exact chainsWF_update_node_location h nid loc
  | drainAllFeeds => exact chainsWF_drainAllFeeds h
  | drainChainUpdates => exact chainsWF_drainChainUpdates h
  | updateAddedNodesMessages => exact chainsWF_roster h

theorem chainsWF_runOps (dl : List String) (mtp : Nat) (send : Bool)
    (md : List (Nat × Nat)) (fp : List Nat) (l : List Op) :
    ChainsWF (runOps (State.new dl mtp send md fp) l) := by
  unfold runOps
  exact foldl_preserve ChainsWF l _ (fun t x _ ht => chainsWF_applyOp ht x)
    (chainsWF_new dl mtp send md fp)

/-- C3 (amended): after any sequence of public operations from a fresh
state, no NodeId is pending in both `added_nodes` and `removed_nodes` of
the same chain's batch (`added ∩ removed = ∅`): `add_node` erases the id
from `removed_nodes` as it inserts into `added_nodes`, and a removal
erases it from `added_nodes` as it inserts into `removed_nodes`.  The
second half of the original claim, `added ∩ updated.keys = ∅`, is false
(see the counterexample): `update_node` never erases from `added_nodes`. -/
theorem c3_added_removed_disjoint (dl : List String) (mtp : Nat) (send : Bool)
    (md : List (Nat × Nat)) (fp : List Nat) (l : List Op) :
    (runOps (State.new dl mtp send md fp) l).addedRemovedDisjoint = true := by
  have h := chainsWF_runOps dl mtp send md fp l
  unfold State.addedRemovedDisjoint
  rw [List.all_eq_true]
  intro p hp
  rw [List.all_eq_true]
  intro q hq
  have hwf := h.2 p hp
  simp [hwf.2.2.2.2 q hq]

/-! ## Helper lemmas for the drain theorems (C5, C6) -/

theorem mem_insertA_key_eq {κ α : Type _} [DecidableEq κ] {m : List (κ × α)}
    {k : κ} {v : α} {p : κ × α} (hp : p ∈ insertA m k v) (hk : p.1 = k) :
    p = (k, v) := by
  rcases mem_insertA hp with ⟨_, hne⟩ | rfl
  · exact absurd hk hne
  · rfl

theorem find?_append_singleton {α : Type _} (pred : α → Bool) (a : List α)
    (x : α) (ha : ∀ y ∈ a, pred y = false) (hx : pred x = true) :
    (a ++ [x]).find? pred = some x := by
  induction a with
  | nil => simp [List.find?, hx]
  | cons y r ih =>
    have hy := ha y (List.mem_cons_self _ _)
    simp only [List.cons_append, List.find?, hy]
    exact ih fun z hz => ha z (List.mem_cons_of_mem _ hz)

theorem removeByRight_bimapInsert (m : List (NodeId × (Nat × Nat)))
    (lft : NodeId) (r : Nat × Nat) :
    removeByRight (bimapInsert m lft r) r =
      (some lft, (bimapInsert m lft r).filter fun q => !decide (q.2 = r)) := by
  unfold removeByRight
  have hfind : (bimapInsert m lft r).find? (fun p => decide (p.2 = r)) =
      some (lft, r) := by
    unfold bimapInsert
    refine find?_append_singleton _ _ _ ?_ (by simp)
    intro y hy
    have hne := (List.mem_filter.1 hy).2
    simp only [Bool.and_eq_true, Bool.not_eq_true', decide_eq_false_iff_not] at hne
    simp [hne.2]
  rw [hfind]

theorem getD_set_firstNone (l : List (Option Node)) (x : Node) :
    (match firstNoneIdx l with
      | some i => l.set i (some x)
      | none => l ++ [some x]).getD ((firstNoneIdx l).getD l.length) none =
      some x := by
  induction l with
  | nil => rfl
  | cons o r ih =>
    cases o with
    | none => rfl
    | some n =>
      cases hf : firstNoneIdx r with
      | none =>
        rw [hf] at ih
        simp only [firstNoneIdx, hf, Option.map_none, Option.getD_none,
          List.length_cons, List.cons_append, List.set]
        simp
      | some i =>
        rw [hf] at ih
        simp only [firstNoneIdx, hf, Option.map_some, Option.getD_some, List.set]
        simpa using ih

theorem state_add_node_alive {st : OrdinaryState} {g : Nat} {d : NodeDetails}
    {det : NodeAddedToChain} {st' : OrdinaryState}
    (h : st.add_node g d = (.nodeAddedToChain det, st')) :
    st'.get_chain_by_node_id det.id = some g := by
  unfold OrdinaryState.add_node at h
  dsimp only at h
  split at h
  · simp at h
  · split at h
    · simp at h
    · simp only [Prod.mk.injEq] at h
      obtain ⟨h1, h2⟩ := h
      injection h1 with h1
      subst h2
      rw [← h1]
      unfold OrdinaryState.get_chain_by_node_id
      dsimp only
      rw [lookupA_insertA_self]
      dsimp only
      rw [getD_set_firstNone]
      rfl

theorem state_remove_node_isSome {st : OrdinaryState} {nid : NodeId}
    (h : st.get_chain_by_node_id nid = some nid.1) :
    (st.remove_node nid).1.isSome = true := by
  unfold OrdinaryState.get_chain_by_node_id at h
  unfold OrdinaryState.remove_node
  cases hl : lookupA st.chains nid.1 with
  | none => rw [hl] at h; simp at h
  | some c =>
    rw [hl] at h
    dsimp only at h ⊢
    cases hs : c.nodes.getD nid.2 none with
    | none =>
      rw [hs] at h
      simp at h
    | some n =>
      dsimp only
      split <;> rfl

theorem flatten_map_map {α β : Type _} (L : List (List α)) (f : α → β) :
    (L.map (List.map f)).flatten = L.flatten.map f := by
  induction L with
  | nil => rfl
  | cons c r ih =>
    simp only [List.map_cons, List.flatten_cons, List.map_append, ih]

theorem flatten_map_flatMap {α β : Type _} (L : List (List α)) (f : α → List β) :
    (L.map fun c => c.flatMap f).flatten = L.flatten.flatMap f := by
  induction L with
  | nil => rfl
  | cons c r ih =>
    simp only [List.map_cons, List.flatten_cons, List.flatMap_append, ih]

/-- Pointwise property of every message drained for chain `g`. -/
theorem groupMsgs_drain_prop (s : State) (g : Nat) (Q : FeedMsg → Bool)
    (hQ : ∀ p ∈ s.chains, p.1 = g →
      ∀ m ∈ (State.drainOneChain p.2).flatten, Q m = true) :
    ∀ m ∈ groupMsgs (s.drain_chain_updates).2 g, Q m = true := by
  intro m hm
  unfold groupMsgs at hm
  rcases List.mem_flatMap.1 hm with ⟨p, hp, hmp⟩
  have hp1 := List.mem_filter.1 hp
  have hpg : p.1 = g := by simpa using hp1.2
  have hpo := hp1.1
  unfold State.drain_chain_updates at hpo
  dsimp only at hpo
  rcases List.mem_map.1 hpo with ⟨q, hq, rfl⟩
  exact hQ q (List.mem_filter.1 hq).1 hpg m hmp

theorem emitNode_aboutLid (nid : NodeId) (nu : NodeUpdates) (l0 : Nat) :
    ((State.emitNode nid nu).all
      fun m => aboutLid l0 m == decide (nid.2 = l0)) = true := by
  obtain ⟨sc, si, bi, nf, aas, loc⟩ := nu
  cases sc <;> cases si <;> cases bi <;> cases nf <;> cases aas <;> cases loc <;>
    simp [State.emitNode, cascade, aboutLid]

/-- Messages of one drained chain mentioning the chain-local id of `X`
can only be `RemovedNode X.2`, provided no pending added or updated entry
carries that local id. -/
theorem drainOneChain_about (u : ChainUpdates) (X : NodeId)
    (hadded : ∀ p ∈ u.added_nodes, p.1.2 = X.2 → False)
    (hupd : ∀ p ∈ u.updated_nodes, p.1.2 = X.2 → False) :
    ∀ m ∈ (State.drainOneChain u).flatten, aboutLid X.2 m = true →
      m = FeedMsg.removedNode X.2 := by
  intro m hm hab
  unfold State.drainOneChain at hm
  rw [List.flatten_append] at hm
  rcases List.mem_append.1 hm with hm | hm
  · rw [List.flatten_append] at hm
    rcases List.mem_append.1 hm with hm | hm
    · -- removed chunk messages
      unfold State.removedChunks at hm
      rw [flatten_map_map, flatten_chunksOf] at hm
      rcases List.mem_map.1 hm with ⟨nid, _, rfl⟩
      simp only [aboutLid, decide_eq_true_eq] at hab
      rw [hab]
    · -- added chunk messages
      unfold State.addedChunks at hm
      rw [flatten_map_map, flatten_chunksOf] at hm
      rcases List.mem_map.1 hm with ⟨p, hp, rfl⟩
      simp only [aboutLid, decide_eq_true_eq] at hab
      exact absurd (hadded p hp hab) (fun f => f)
  · -- updated chunk messages
    unfold State.updatedChunks at hm
    rw [flatten_map_flatMap, flatten_chunksOf] at hm
    rcases List.mem_flatMap.1 hm with ⟨p, hp, hmp⟩
    have hall := emitNode_aboutLid p.1 p.2 X.2
    rw [List.all_eq_true] at hall
    have := hall m hmp
    rw [hab] at this
    have hlid : p.1.2 = X.2 := by
      have hb := this.symm
      simpa using hb
    exact absurd (hupd p hp hlid) (fun f => f)

/-- `send_node_data` is never written by any public operation. -/
theorem send_removeGidStep (g : Nat) (s : State) (nid : NodeId) :
    (State.removeGidStep g s nid).send_node_data = s.send_node_data := by
  unfold State.removeGidStep
  dsimp only
  split
  · rfl
  · split
    · rfl
    · rfl

theorem send_removeChainGroup (s : State) (g : Nat) (gids : List NodeId) :
    (State.removeChainGroup s g gids).send_node_data = s.send_node_data := by
  unfold State.removeChainGroup
  split
  · rfl
  · split
    · rfl
    · refine foldl_preserve
        (fun (t : State) => t.send_node_data = s.send_node_data) gids s ?_ rfl
      intro t x _ ht
      rw [send_removeGidStep, ht]

theorem send_remove_nodes (s : State) (ids : List NodeId) :
    (s.remove_nodes ids).send_node_data = s.send_node_data := by
  unfold State.remove_nodes
  refine foldl_preserve
    (fun (t : State) => t.send_node_data = s.send_node_data) _ s ?_ rfl
  intro t x _ ht
  rw [send_removeChainGroup, ht]

theorem send_applyOp (s : State) (op : Op) :
    (applyOp s op).send_node_data = s.send_node_data := by
  cases op with
  | addNode g c l d =>
    simp only [applyOp]
    unfold State.add_node
    split <;> rfl
  | updateNode c l p =>
    simp only [applyOp]
    unfold State.update_node
    split
    · rfl
    · split
      · rfl
      · split <;> rfl
  | removeNode c l =>
    simp only [applyOp]
    unfold State.remove_node
    rcases hr : removeByRight s.node_ids (c, l) with ⟨o, m'⟩
    cases o with
    | none => rfl
    | some nid => exact send_remove_nodes { s with node_ids := m' } [nid]
  | disconnectNode c =>
    simp only [applyOp]
    exact send_remove_nodes s _
  | updateNodeLocation nid loc =>
    simp only [applyOp]
    unfold State.update_node_location
    split
    · split
      · split <;> rfl
      · rfl
    · rfl
  | drainAllFeeds => rfl
  | drainChainUpdates => rfl
  | updateAddedNodesMessages =>
    simp only [applyOp]
    unfold State.update_added_nodes_messages
    split <;> rfl

theorem send_runOps (dl : List String) (mtp : Nat) (send : Bool)
    (md : List (Nat × Nat)) (fp : List Nat) (l : List Op) :
    (runOps (State.new dl mtp send md fp) l).send_node_data = send := by
  unfold runOps
  refine foldl_preserve (fun (t : State) => t.send_node_data = send) l _ ?_ rfl
  intro t x _ ht
  rw [send_applyOp, ht]

/-- C5 (amended): admitting node X and then removing it (via its shard
pair) before the next drain leaves no `AddedNode`, no `LocatedNode` and
no replayed-update messages for X in the next `drain_chain_updates`; the
only message mentioning X's chain-local id that can appear is
`RemovedNode X.2` — which IS emitted whenever other nodes keep the
chain's batch entry alive (see the counterexample), and not at all when
the removal empties the chain. -/
theorem c5_add_remove_only_removed_message (dl : List String) (mtp : Nat)
    (md : List (Nat × Nat)) (fp : List Nat) (l : List Op) (g c lo : Nat)
    (d : NodeDetails) (s1 : State) (X : NodeId)
    (hadd : (runOps (State.new dl mtp true md fp) l).add_node g c lo d =
      (s1, .ok X)) :
    ((groupMsgs ((s1.remove_node c lo).drain_chain_updates).2 X.1).all
      fun m => !aboutLid X.2 m || decide (m = FeedMsg.removedNode X.2)) = true := by
  have hwf : ChainsWF (runOps (State.new dl mtp true md fp) l) :=
    chainsWF_runOps dl mtp true md fp l
  have hsend : (runOps (State.new dl mtp true md fp) l).send_node_data = true :=
    send_runOps dl mtp true md fp l
  generalize hS : runOps (State.new dl mtp true md fp) l = s at hadd hwf hsend
  unfold State.add_node at hadd
  rcases hres : s.state.add_node g d with ⟨res, st'⟩
  rw [hres] at hadd
  cases res with
  | chainOverQuota => simp at hadd
  | chainOnDenyList => simp at hadd
  | nodeAddedToChain det =>
    dsimp only at hadd
    rw [hsend] at hadd
    simp only [if_true] at hadd
    simp only [Prod.mk.injEq] at hadd
    obtain ⟨hs1, hX⟩ := hadd
    injection hX with hX
    subst hX
    subst hs1
    have hid : det.id.1 = g := state_add_node_id_fst hres
    have halive : st'.get_chain_by_node_id det.id = some g :=
      state_add_node_alive hres
    obtain ⟨ha0, hr0, hup0, hnd0, hdisj0⟩ := entryWF_getD hwf g
    rw [hid]
    unfold State.remove_node
    dsimp only
    rw [removeByRight_bimapInsert]
    dsimp only
    unfold State.remove_nodes
    dsimp only
    have hgroup : State.groupByChain st' [det.id] = [(g, [det.id])] := by
      unfold State.groupByChain State.appendToGroup
      simp [halive, lookupA]
    rw [hgroup]
    dsimp only [List.foldl]
    unfold State.removeChainGroup
    dsimp only
    rw [lookupA_insertA_self]
    dsimp only
    split
    · -- whole-chain shortcut: the chain's batch entry is dropped entirely
      rw [List.all_eq_true]
      intro m hm
      refine groupMsgs_drain_prop _ g
        (fun m => !aboutLid det.id.2 m ||
          decide (m = FeedMsg.removedNode det.id.2)) ?_ m hm
      intro p hp hpg
      have hne : ¬ p.1 = g := by
        have := (List.mem_filter.1 hp).2
        simpa using this
      exact absurd hpg hne
    · -- individual removal: X is erased from added and updated,
      -- inserted into removed
      simp only [List.foldl_cons, List.foldl_nil]
      unfold State.removeGidStep
      dsimp only
      rcases hrm : st'.remove_node det.id with ⟨orr, st2⟩
      cases orr with
      | none =>
        have halive2 : st'.get_chain_by_node_id det.id = some det.id.1 := by
          rw [hid]
          exact halive
        have hsome := state_remove_node_isSome halive2
        rw [hrm] at hsome
        simp at hsome
      | some r =>
        dsimp only
        rw [lookupA_insertA_self]
        dsimp only
        rw [if_pos (rfl : (true : Bool) = true)]
        rw [List.all_eq_true]
        intro m hm
        refine groupMsgs_drain_prop _ g
          (fun m => !aboutLid det.id.2 m ||
            decide (m = FeedMsg.removedNode det.id.2)) ?_ m hm
        intro p hp hpg
        have hp2 := mem_insertA_key_eq hp hpg
        intro m2 hm2
        cases hab : aboutLid det.id.2 m2 with
        | false => simp [hab]
        | true =>
          have hform : m2 = FeedMsg.removedNode det.id.2 := by
            rw [hp2] at hm2
            refine drainOneChain_about _ det.id ?_ ?_ m2 hm2 hab
            · intro q hq hq2
              have hq1 := (List.mem_filter.1 hq).1
              have hqne : ¬ q.1 = det.id := by
                have := (List.mem_filter.1 hq).2
                simpa using this
              rcases mem_insertA hq1 with ⟨hq0, _⟩ | rfl
              · have hqg : q.1.1 = g := ha0 q hq0
                exact hqne (Prod.ext (hqg.trans hid.symm) hq2)
              · exact hqne rfl
            · intro q hq hq2
              have hq1 := (List.mem_filter.1 hq).1
              have hqne : ¬ q.1 = det.id := by
                have := (List.mem_filter.1 hq).2
                simpa using this
              have hqg : q.1.1 = g := hup0 q hq1
              exact hqne (Prod.ext (hqg.trans hid.symm) hq2)
          rw [hform]
          simp

/-! ## C6: coalescing of SystemInterval payloads -/

/-- The interval-payload bodies serialized for the given chain-local id,
in order. -/
def intervalMsgsFor (lid : Nat) (msgs : List FeedMsg) : List Nat :=
  msgs.filterMap fun m =>
    match m with
    | .systemIntervalMsg l0 v => if l0 = lid then some v else none
    | _ => none

theorem filterMap_flatMap {α β γ : Type _} (l : List α) (f : α → List β)
    (g : β → Option γ) :
    (l.flatMap f).filterMap g = l.flatMap fun x => (f x).filterMap g := by
  induction l with
  | nil => rfl
  | cons x r ih => simp only [List.flatMap_cons, List.filterMap_append, ih]

theorem flatMap_eq_nil_of {α β : Type _} (l : List α) (f : α → List β)
    (h : ∀ x ∈ l, f x = []) : l.flatMap f = [] := by
  induction l with
  | nil => rfl
  | cons x r ih =>
    simp only [List.flatMap_cons, h x (List.mem_cons_self _ _), List.nil_append]
    exact ih fun y hy => h y (List.mem_cons_of_mem _ hy)

theorem intervalMsgsFor_emitNode (nid : NodeId) (nu : NodeUpdates) (lid : Nat) :
    intervalMsgsFor lid (State.emitNode nid nu) =
      if nid.2 = lid then nu.system_interval.toList else [] := by
  obtain ⟨sc, si, bi, nf, aas, loc⟩ := nu
  by_cases h : nid.2 = lid <;>
    cases sc <;> cases si <;> cases bi <;> cases nf <;> cases aas <;> cases loc <;>
      simp [State.emitNode, cascade, intervalMsgsFor, h]

theorem insertA_insertA {κ α : Type _} [DecidableEq κ]
    (m : List (κ × α)) (k : κ) (v w : α) :
    insertA (insertA m k v) k w = insertA m k w := by
  unfold insertA
  rw [List.filter_append]
  have h1 : (List.filter (fun p => !decide (p.1 = k)) [(k, v)]) = [] := by simp
  rw [h1, List.append_nil]
  congr 1
  rw [List.filter_filter]
  exact List.filter_congr fun a _ => Bool.and_self _

/-- The pending update slots after recording one interval payload for `X`
on top of the chain entry `u`. -/
def intervalNu (u : ChainUpdates) (X : NodeId) (v : Nat) : NodeUpdates :=
  { (lookupA u.updated_nodes X).getD {} with system_interval := some v }

/-- The chain entry after recording one interval payload for `X`. -/
def intervalEntry (u : ChainUpdates) (X : NodeId) (v : Nat) : ChainUpdates :=
  { u with updated_nodes := insertA u.updated_nodes X (intervalNu u X v) }

/-- The state after recording one interval payload for node `X` of the
chain entry `u`. -/
def intervalFoldState (s : State) (X : NodeId) (u : ChainUpdates) (v : Nat) :
    State :=
  { s with chains := insertA s.chains X.1 (intervalEntry u X v) }

theorem update_node_interval_first (s : State) (c lo v : Nat) (X : NodeId)
    (u : ChainUpdates)
    (hX : getByRight s.node_ids (c, lo) = some X)
    (hsend : s.send_node_data = true)
    (hchain : s.state.get_chain_by_node_id X = some X.1)
    (hu : lookupA s.chains X.1 = some u) :
    s.update_node c lo (.systemInterval v) = intervalFoldState s X u v := by
  unfold State.update_node intervalFoldState intervalEntry intervalNu
  rw [hX]
  dsimp only
  rw [hsend, if_neg (by decide : ¬ ((!true) = true))]
  rw [hchain]
  dsimp only
  rw [hu]
  rfl

theorem update_node_interval_next (s : State) (c lo v w : Nat) (X : NodeId)
    (u : ChainUpdates)
    (hX : getByRight s.node_ids (c, lo) = some X)
    (hsend : s.send_node_data = true)
    (hchain : s.state.get_chain_by_node_id X = some X.1) :
    (intervalFoldState s X u v).update_node c lo (.systemInterval w) =
      intervalFoldState s X u w := by
  unfold State.update_node intervalFoldState intervalEntry intervalNu
  dsimp only
  rw [hX]
  dsimp only
  rw [hsend, if_neg (by decide : ¬ ((!true) = true))]
  rw [hchain]
  dsimp only
  rw [lookupA_insertA_self]
  simp only [Option.getD_some]
  rw [lookupA_insertA_self]
  simp only [Option.getD_some]
  rw [insertA_insertA, insertA_insertA]
  simp only [State.setPayload]

theorem foldl_interval_tail (s : State) (c lo : Nat) (X : NodeId)
    (u : ChainUpdates)
    (hX : getByRight s.node_ids (c, lo) = some X)
    (hsend : s.send_node_data = true)
    (hchain : s.state.get_chain_by_node_id X = some X.1) :
    ∀ (rest : List Nat) (v : Nat),
      rest.foldl (fun t w => t.update_node c lo (.systemInterval w))
        (intervalFoldState s X u v) =
        intervalFoldState s X u (rest.getLastD v) := by
  intro rest
  induction rest with
  | nil => intro v; rfl
  | cons w r ih =>
    intro v
    rw [List.foldl_cons, update_node_interval_next s c lo v w X u hX hsend hchain,
      ih, List.getLastD_cons]

theorem filter_drain_pair (m : List (Nat × ChainUpdates)) (g0 : Nat)
    (u' : ChainUpdates) (hc : ¬ u'.node_count = 0) :
    (((insertA m g0 u').filter fun p => !decide (p.2.node_count = 0)).map
        (fun p => (p.1, State.drainOneChain p.2))).filter
        (fun p => decide (p.1 = g0)) =
      [(g0, State.drainOneChain u')] := by
  unfold insertA
  rw [List.filter_append, List.map_append, List.filter_append]
  have h1 : ((((m.filter fun p => !decide (p.1 = g0)).filter
      fun p => !decide (p.2.node_count = 0)).map
        (fun p => (p.1, State.drainOneChain p.2))).filter
        (fun p => decide (p.1 = g0))) = [] := by
    rw [List.filter_eq_nil_iff]
    intro x hx
    rcases List.mem_map.1 hx with ⟨q, hq, rfl⟩
    have hq1 := (List.mem_filter.1 (List.mem_filter.1 hq).1).2
    simpa using hq1
  rw [h1, List.nil_append]
  simp [hc]

theorem groupMsgs_drain_insert (s : State) (g0 : Nat) (u' : ChainUpdates)
    (hc : ¬ u'.node_count = 0) :
    groupMsgs ((({ s with chains := insertA s.chains g0 u' } : State).drain_chain_updates).2)
      g0 = (State.drainOneChain u').flatten := by
  unfold State.drain_chain_updates groupMsgs
  dsimp only
  rw [filter_drain_pair s.chains g0 u' hc]
  simp

set_option maxRecDepth 40000 in
/-- Witness for `c5_add_remove_only_removed_message`: a chain kept alive
by one other node, with X admitted and removed in the same tick. -/
theorem c5_add_remove_only_removed_message_witness :
    ((runOps exInit [.addNode 5 1 10 exDetails]).add_node 5 1 11 exDetails =
      (((runOps exInit [.addNode 5 1 10 exDetails]).add_node 5 1 11 exDetails).1,
        .ok (5, 1))) ∧
      ((groupMsgs
          (((((runOps exInit [.addNode 5 1 10 exDetails]).add_node 5 1 11
            exDetails).1.remove_node 1 11).drain_chain_updates).2)
          (5, 1).1).all
        fun m => !aboutLid (5, 1).2 m ||
          decide (m = FeedMsg.removedNode (5, 1).2)) = true :=
  ⟨by decide,
    c5_add_remove_only_removed_message [] 0 [] [5]
      [.addNode 5 1 10 exDetails] 5 1 11 exDetails
      ((runOps exInit [.addNode 5 1 10 exDetails]).add_node 5 1 11 exDetails).1
      (5, 1) (by decide)⟩

set_option maxRecDepth 100000 in
/-- Witness for `c4_chunk_bounds` at a concrete drained batch and the
33-node roster state. -/
theorem c4_chunk_bounds_witness :
    (runOps exInit c4ops).send_node_data = true ∧
      (((State.removedChunks ((lookupA (runOps exInit c5ops).chains 5).getD {})).all
          fun c => decide (c.length ≤ 64)) = true ∧
        ((State.addedChunks ((lookupA (runOps exInit c5ops).chains 5).getD {})).all
          fun c => decide (c.length ≤ 64)) = true ∧
        ((chunksOf State.MSGS_PER_WS_MSG
            ((lookupA (runOps exInit c5ops).chains 5).getD {}).updated_nodes).all
          fun c => decide (c.length ≤ 64)) = true ∧
        ((State.updatedChunks ((lookupA (runOps exInit c5ops).chains 5).getD {})).all
          fun c => decide (c.length ≤ 384)) = true ∧
        (((runOps exInit c4ops).update_added_nodes_messages).chain_nodes.all
          fun p => p.2.all fun c => decide (c.length ≤ 192)) = true) :=
  ⟨by decide,
    c4_chunk_bounds (runOps exInit c4ops)
      ((lookupA (runOps exInit c5ops).chains 5).getD {}) (by decide)⟩

theorem filterMap_eq_nil_of {α β : Type _} (l : List α) (f : α → Option β)
    (h : ∀ x ∈ l, f x = none) : l.filterMap f = [] := by
  induction l with
  | nil => rfl
  | cons x r ih =>
    rw [List.filterMap_cons, h x (List.mem_cons_self _ _)]
    exact ih fun y hy => h y (List.mem_cons_of_mem _ hy)

theorem intervalMsgsFor_append (lid : Nat) (a b : List FeedMsg) :
    intervalMsgsFor lid (a ++ b) =
      intervalMsgsFor lid a ++ intervalMsgsFor lid b :=
  List.filterMap_append _ _ _

theorem intervalMsgsFor_flatMap {α : Type _} (lid : Nat) (l : List α)
    (f : α → List FeedMsg) :
    intervalMsgsFor lid (l.flatMap f) =
      l.flatMap fun x => intervalMsgsFor lid (f x) :=
  filterMap_flatMap l f _

theorem intervalMsgsFor_map_removed (lid : Nat) (l : List NodeId) :
    intervalMsgsFor lid (l.map fun nid => FeedMsg.removedNode nid.2) = [] := by
  unfold intervalMsgsFor
  apply filterMap_eq_nil_of
  intro x hx
  rcases List.mem_map.1 hx with ⟨nid, _, rfl⟩
  rfl

theorem intervalMsgsFor_map_added (lid : Nat)
    (l : List (NodeId × Node)) :
    intervalMsgsFor lid (l.map fun p => FeedMsg.addedNode p.1.2 p.2.details) =
      [] := by
  unfold intervalMsgsFor
  apply filterMap_eq_nil_of
  intro x hx
  rcases List.mem_map.1 hx with ⟨p, _, rfl⟩
  rfl

/-- Draining the chain entry produced by recording interval payload `v`
for node `X` serializes exactly one interval message for `X`, carrying
`v`.  The hypothesis is per-entry coherence: all pending updated-node
keys of the base entry belong to `X`'s chain. -/
theorem intervalMsgsFor_drain_entry (u : ChainUpdates) (X : NodeId) (v : Nat)
    (hupd : ∀ p ∈ u.updated_nodes, p.1.1 = X.1) :
    intervalMsgsFor X.2 ((State.drainOneChain (intervalEntry u X v)).flatten) =
      [v] := by
  unfold State.drainOneChain
  rw [List.flatten_append, List.flatten_append, intervalMsgsFor_append,
    intervalMsgsFor_append]
  have hrem : intervalMsgsFor X.2
      ((State.removedChunks (intervalEntry u X v)).flatten) = [] := by
    unfold State.removedChunks
    rw [flatten_map_map, flatten_chunksOf]
    exact intervalMsgsFor_map_removed _ _
  have hadd : intervalMsgsFor X.2
      ((State.addedChunks (intervalEntry u X v)).flatten) = [] := by
    unfold State.addedChunks
    rw [flatten_map_map, flatten_chunksOf]
    exact intervalMsgsFor_map_added _ _
  have hupds : intervalMsgsFor X.2
      ((State.updatedChunks (intervalEntry u X v)).flatten) = [v] := by
    unfold State.updatedChunks
    rw [flatten_map_flatMap, flatten_chunksOf]
    dsimp only [intervalEntry]
    rw [intervalMsgsFor_flatMap]
    unfold insertA
    rw [List.flatMap_append]
    have h1 : ((u.updated_nodes.filter fun p => !decide (p.1 = X)).flatMap
        fun p => intervalMsgsFor X.2 (State.emitNode p.1 p.2)) = [] := by
      apply flatMap_eq_nil_of
      intro p hp
      have hmem := (List.mem_filter.1 hp).1
      have hne : ¬ (p.1 = X) := by simpa using (List.mem_filter.1 hp).2
      rw [intervalMsgsFor_emitNode, if_neg]
      intro h2
      exact hne (Prod.ext (hupd p hmem) h2)
    rw [h1, List.nil_append]
    simp only [List.flatMap_cons, List.flatMap_nil, List.append_nil]
    rw [intervalMsgsFor_emitNode, if_pos rfl]
    rfl
  rw [hrem, hadd, hupds]
  rfl

/-- C6: for every reachable state with node data enabled, every node X
known to the identity map and the model, and every non-empty batch of
`SystemInterval` payloads recorded for X through `update_node` between
two drains, the next `drain_chain_updates` serializes exactly one
interval message for X, and it carries the last payload's value: each
`update_node` overwrites the single `system_interval` slot of X's pending
`NodeUpdates` entry, and the drain replays that slot once. -/
theorem c6_interval_coalescing (dl : List String) (mtp : Nat)
    (md : List (Nat × Nat)) (fp : List Nat) (l : List Op) (c lo : Nat)
    (vs : List Nat) (X : NodeId) (u : ChainUpdates)
    (hvs : vs ≠ [])
    (hX : getByRight (runOps (State.new dl mtp true md fp) l).node_ids
      (c, lo) = some X)
    (hchain : (runOps (State.new dl mtp true md fp)
      l).state.get_chain_by_node_id X = some X.1)
    (hu : lookupA (runOps (State.new dl mtp true md fp) l).chains X.1 =
      some u)
    (hc : ¬ u.node_count = 0) :
    intervalMsgsFor X.2
      (groupMsgs
        (((vs.foldl (fun t w => t.update_node c lo (.systemInterval w))
            (runOps (State.new dl mtp true md fp) l)).drain_chain_updates).2)
        X.1) =
      [vs.getLastD 0] := by
  have hsend : (runOps (State.new dl mtp true md fp) l).send_node_data =
      true := send_runOps dl mtp true md fp l
  have hupd : ∀ p ∈ u.updated_nodes, p.1.1 = X.1 :=
    (entryWF_of_lookup (chainsWF_runOps dl mtp true md fp l) hu).2.2.1
  cases vs with
  | nil => exact absurd rfl hvs
  | cons v rest =>
    rw [List.foldl_cons,
      update_node_interval_first (runOps (State.new dl mtp true md fp) l)
        c lo v X u hX hsend hchain hu,
      foldl_interval_tail (runOps (State.new dl mtp true md fp) l)
        c lo X u hX hsend hchain rest v,
      List.getLastD_cons]
    unfold intervalFoldState
    rw [groupMsgs_drain_insert (runOps (State.new dl mtp true md fp) l) X.1
      (intervalEntry u X (rest.getLastD v)) hc]
    exact intervalMsgsFor_drain_entry u X (rest.getLastD v) hupd

set_option maxRecDepth 40000 in
/-- Witness for `c6_interval_coalescing`: one node, three interval
payloads 7, 8, 9 between drains; the drain serializes exactly `[9]`. -/
theorem c6_interval_coalescing_witness :
    intervalMsgsFor (5, 0).2
      (groupMsgs
        ((([7, 8, 9].foldl
            (fun t w => t.update_node 1 10 (.systemInterval w))
            (runOps (State.new [] 0 true [] [5])
              [.addNode 5 1 10 exDetails])).drain_chain_updates).2)
        (5, 0).1) =
      [9] :=
  c6_interval_coalescing [] 0 [] [5] [.addNode 5 1 10 exDetails] 1 10
    [7, 8, 9] (5, 0)
    ((lookupA (runOps (State.new [] 0 true [] [5])
      [.addNode 5 1 10 exDetails]).chains 5).getD {})
    (by decide) (by decide) (by decide) (by decide) (by decide)

end Substation

